import Mathlib

/-!
# Rouledict prediction engine (`src/src/App.js`)

A shallow embedding of the roulette "dozen" predictor of `App.js`.

Modelling conventions:

* The React state of the `App` component (`numbers`, `predictions`, `botStats`,
  `fiboIndex`, `currentPred`, `analyzeLast`, `useAltDocena`) is one record
  `State`; each event handler is a function `State → State` that returns the
  state once the batched updates, the re-render, the stabilization effect and
  the 80 ms timer of `addNumber` have all run.
* JavaScript numbers: the outcome log holds integers (`Int`); the raw argument
  of `addNumber` is a rational (so that `2.5` can be offered). The score table
  is computed on exact rationals (`Math.round(x * 1000) / 1000` is
  `⌊1000 x + 1/2⌋ / 1000`), so a score is a value `k / 1000`; it stands for the
  double nearest to it, the one `k / 1000` evaluates to. Scores are compared
  with each other and with literals as such. The products `score * 1.2` and
  `score * 1.1` of the stabilizer are taken on doubles (`toDouble`, `jsMul`):
  binary64, round to nearest, ties to even.
* A JavaScript object keyed by dozen (`counts`, `absence`, `streak`, `scores`)
  is a function on `Nat`; `null` is `none`.
* The fields `id`, `createdAt` (clock reads) and `method` (a constant string) of
  a prediction record are not modelled.
-/

namespace Rouledict

/-! ## Constants and the dozen mapping -/

/-- `const FIB = [1, 1, 2, 3, 5, 8, 13, 21]`. -/
def FIB : List Nat := [1, 1, 2, 3, 5, 8, 13, 21]

/-- `getDocena(n)`: `0 ↦ 0`, `1..12 ↦ 1`, `13..24 ↦ 2`, `25..36 ↦ 3`, else `null`. -/
def getDocena (n : Int) : Option Nat :=
  if n = 0 then some 0
  else if 1 ≤ n ∧ n ≤ 12 then some 1
  else if 13 ≤ n ∧ n ≤ 24 then some 2
  else if 25 ≤ n ∧ n ≤ 36 then some 3
  else none

/-! ## Data model -/

/-- The two non-null values of a record's `result` field: `'win'` and `'loss'`. -/
inductive Verdict where
  | win
  | loss
deriving DecidableEq

/-- The three labels returned by `strengthLabel`. -/
inductive Strength where
  | fuerte
  | moderada
  | debil
deriving DecidableEq

/-- `strengthLabel(score)`. -/
def strengthLabel (score : ℚ) : Strength :=
  if score > 65 / 100 then Strength.fuerte
  else if score > 45 / 100 then Strength.moderada
  else Strength.debil

/-- A prediction record (`newPred` in `addNumber`); `result = none` is the
pending record (`result: null`). -/
structure Prediction where
  predictedDocena : Nat
  altPred : Option Nat
  score : ℚ
  strength : Strength
  prob : ℚ
  result : Option Verdict
  numberWhenEvaluated : Option Int
deriving DecidableEq

/-- The stabilizer's current prediction `{primary, alt, score, roundsHeld}`. -/
structure CurrentPred where
  primary : Nat
  alt : Option Nat
  score : ℚ
  roundsHeld : Nat
deriving DecidableEq

/-- `botStats`: `{ won, lost }`. -/
structure BotStats where
  won : Nat
  lost : Nat
deriving DecidableEq

/-- The component state. -/
structure State where
  numbers : List Int
  analyzeLast : Nat
  useAltDocena : Bool
  predictions : List Prediction
  botStats : BotStats
  fiboIndex : Nat
  currentPred : Option CurrentPred
deriving DecidableEq

/-- The state of the `useState` initialisers. -/
def initialState : State :=
  { numbers := [], analyzeLast := 30, useAltDocena := true, predictions := [],
    botStats := { won := 0, lost := 0 }, fiboIndex := 0, currentPred := none }

/-! ## Window statistics -/

/-- `numbers.slice(-analyzeLast)`: the last `analyzeLast` elements (all of them
when the list is shorter); `slice(-0)` is `slice(0)`, the whole list. -/
def lastNumbers (numbers : List Int) (analyzeLast : Nat) : List Int :=
  if analyzeLast = 0 then numbers else numbers.drop (numbers.length - analyzeLast)

/-- One step of the `forEach` of `counts`: `if (d !== null) c[d]++`. -/
def countStep (c : Nat → Nat) (n : Int) : Nat → Nat :=
  match getDocena n with
  | some d => Function.update c d (c d + 1)
  | none => c

/-- `counts`: per-dozen occurrences in the window, starting from all zeros. -/
def counts (window : List Int) : Nat → Nat :=
  window.foldl countStep (fun _ => 0)

/-- `totalAnalyzed = Math.max(1, lastNumbers.length)`. -/
def totalAnalyzed (window : List Int) : Nat := max 1 window.length

/-- The inner loop of `absence` for dozen `d`: `rev` is the part of the log still
to scan, most recent first, and `gap` the loop counter. -/
def absenceScan (d : Nat) : List Int → Nat → Option Nat
  | [], _ => none
  | x :: rest, gap => if getDocena x = some d then some gap else absenceScan d rest (gap + 1)

/-- `absence[d]`: rounds since the most recent occurrence of `d` in the full log. -/
def absence (numbers : List Int) (d : Nat) : Option Nat :=
  absenceScan d numbers.reverse 0

/-- The inner loop of `streak` for dozen `d` over the log, most recent first. -/
def streakScan (d : Nat) : List Int → Nat
  | [] => 0
  | x :: rest => if getDocena x = some d then streakScan d rest + 1 else 0

/-- `streak[d]`: consecutive occurrences of `d` at the end of the full log. -/
def streak (numbers : List Int) (d : Nat) : Nat :=
  streakScan d numbers.reverse

/-! ## Scorer -/

/-- `absValues`/`maxAbs`: `Object.values(absence)` ranges over the four keys
`0, 1, 2, 3`; the non-null values are kept and `Math.max(...absValues)` is taken
(`0` when there is none). -/
def maxAbs (abs : Nat → Option Nat) : Nat :=
  let absValues := ([0, 1, 2, 3].map abs).filterMap id
  if absValues.length ≠ 0 then absValues.foldl max 0 else 0

/-- `freqNorm[d] = counts[d] / totalAnalyzed`. -/
def freqNorm (cnt : Nat → Nat) (total : Nat) (d : Nat) : ℚ :=
  (cnt d : ℚ) / (total : ℚ)

/-- `absenceNorm[d]`: `(absence[d] === null ? maxAbs : absence[d]) / maxAbs` when
`maxAbs > 0`, else `0`. -/
def absenceNorm (abs : Nat → Option Nat) (d : Nat) : ℚ :=
  if maxAbs abs > 0 then
    ((match abs d with
      | none => maxAbs abs
      | some a => a : Nat) : ℚ) / (maxAbs abs : ℚ)
  else 0

/-- The pair `(wFreq, wAbs)` before normalisation: `(0.6, 0.4)`, replaced by
`(0.8, 0.2)` when `streak[d] >= 2`, then by `(0.3, 0.7)` when `absence[d]` is
known and `>= 5`. -/
def weights (abs : Nat → Option Nat) (stk : Nat → Nat) (d : Nat) : ℚ × ℚ :=
  let w0 : ℚ × ℚ := (6 / 10, 4 / 10)
  let w1 : ℚ × ℚ := if stk d ≥ 2 then (8 / 10, 2 / 10) else w0
  match abs d with
  | some a => if a ≥ 5 then (3 / 10, 7 / 10) else w1
  | none => w1

/-- `Math.round(x)` on exact rationals: `⌊x + 1/2⌋`. -/
def jsRound (x : ℚ) : Int := ⌊x + 1 / 2⌋

/-- The body of the second loop of `scores` for dozen `d`, on exact rationals:
the result is a 3-decimal value `k / 1000`. -/
def scoreOf (cnt : Nat → Nat) (abs : Nat → Option Nat) (stk : Nat → Nat) (total : Nat)
    (d : Nat) : ℚ :=
  let w := weights abs stk d
  let norm := w.1 + w.2
  let wFreq := w.1 / norm
  let wAbs := w.2 / norm
  let score := freqNorm cnt total d * wFreq + absenceNorm abs d * wAbs
  (jsRound (score * 1000) : ℚ) / 1000

/-- The memo `scores`, as a function of the memos it reads. The result object has
the keys `1, 2, 3` only; it is never read at another key in a state reached from
`initialState`. -/
def scoresOf (cnt : Nat → Nat) (abs : Nat → Option Nat) (stk : Nat → Nat) (total : Nat) :
    Nat → ℚ :=
  if total = 0 then fun _ => 0
  else fun d => scoreOf cnt abs stk total d

/-- The memo `scores` for a log and a window size. -/
def scores (numbers : List Int) (analyzeLast : Nat) : Nat → ℚ :=
  scoresOf (counts (lastNumbers numbers analyzeLast)) (absence numbers) (streak numbers)
    (totalAnalyzed (lastNumbers numbers analyzeLast))

/-! ## Double-precision products -/

/-- The power `2 ^ e` for an integer exponent. -/
def pow2 (e : Int) : ℚ :=
  if 0 ≤ e then ((2 ^ e.toNat : Nat) : ℚ) else 1 / ((2 ^ (-e).toNat : Nat) : ℚ)

/-- The position of the leading bit of `n`, by halving at most `fuel` times
(`0` for `n < 2`). -/
def log2Fuel : Nat → Nat → Nat
  | 0, _ => 0
  | fuel + 1, n => if n < 2 then 0 else log2Fuel fuel (n / 2) + 1

/-- The binary exponent of a positive rational `x`, the `e` with
`2 ^ e ≤ x < 2 ^ (e + 1)`, from the leading bits of its numerator and
denominator (both below `2 ^ 2048`). -/
def binExp (x : ℚ) : Int :=
  let e0 : Int := (log2Fuel 2048 x.num.natAbs : Int) - (log2Fuel 2048 x.den : Int)
  if x < pow2 e0 then e0 - 1 else e0

/-- The integer nearest to `r`, a tie going to the even one. -/
def roundHalfEven (r : ℚ) : Int :=
  let f : Int := ⌊r⌋
  if r - f < 1 / 2 then f
  else if 1 / 2 < r - f then f + 1
  else if f % 2 = 0 then f else f + 1

/-- A positive `x` rounded to 53 significant bits: with `e` its binary exponent,
the multiple of `2 ^ (e - 52)` nearest to `x`, ties to even. The test that `e`
is the exponent of `x` holds whenever numerator and denominator are below
`2 ^ 2048`; otherwise `x` is left as it is. -/
def roundPos (x : ℚ) : ℚ :=
  if pow2 (binExp x) ≤ x ∧ x < pow2 (binExp x + 1) then
    (roundHalfEven (x / pow2 (binExp x - 52)) : ℚ) * pow2 (binExp x - 52)
  else x

/-- The binary64 number nearest to `x` (53-bit significand, round to nearest,
ties to even), in the normal range of exponents: the double that a decimal
literal, or the exact result of an operation on doubles, evaluates to. -/
def toDouble (x : ℚ) : ℚ :=
  if x = 0 then 0
  else if x < 0 then -roundPos (-x)
  else roundPos x

/-- The JavaScript product `a * b` of the doubles that `a` and `b` stand for. -/
def jsMul (a b : ℚ) : ℚ := toDouble (toDouble a * toDouble b)

/-! ## Stabilizer -/

/-- `[1, 2, 3].map(d => ({d, score: scores[d]}))` sorted with the comparator
`(a, b) => b.score - a.score`: descending by score; the sort is stable, so equal
scores keep the order `1, 2, 3` (insertion sort placing an element before the
first one whose score is not greater). -/
def sortedEntries (sc : Nat → ℚ) : List (Nat × ℚ) :=
  List.insertionSort (fun a b => b.2 ≤ a.2) ([1, 2, 3].map fun d => (d, sc d))

/-- `entries[0]`. -/
def best (sc : Nat → ℚ) : Nat × ℚ := (sortedEntries sc).getD 0 (0, 0)

/-- `entries[1]`. -/
def second (sc : Nat → ℚ) : Nat × ℚ := (sortedEntries sc).getD 1 (0, 0)

/-- The object `{ primary: best.d, alt: useAltDocena ? second.d : null,
score: best.score, roundsHeld: 1 }`. -/
def switchTo (sc : Nat → ℚ) (useAlt : Bool) : CurrentPred :=
  { primary := (best sc).1, alt := if useAlt then some (second sc).1 else none,
    score := (best sc).2, roundsHeld := 1 }

/-- `predictions.slice().reverse().filter(p => p.result).slice(0, 2)`. -/
def lastTwo (predictions : List Prediction) : List Prediction :=
  (predictions.reverse.filter fun p => p.result.isSome).take 2

/-- `lastTwoWins`: the two most recently resolved records are wins for `primary`. -/
def lastTwoWins (predictions : List Prediction) (primary : Nat) : Bool :=
  match lastTwo predictions with
  | a :: b :: _ =>
      decide (a.result = some Verdict.win) && decide (b.result = some Verdict.win) &&
        decide (a.predictedDocena = primary) && decide (b.predictedDocena = primary)
  | _ => false

/-- The body of the stabilization effect, as a function of what it reads
(`numbers.length`, `scores`, `useAltDocena`, `predictions`, `currentPred`);
the result is the next `currentPred`. `threshold = currentPred.score * 1.2` and
`currentPred.score * 1.1` are products of doubles, and `best.score` is compared
with them as the double it stands for. -/
def stabilize (len : Nat) (sc : Nat → ℚ) (useAlt : Bool) (predictions : List Prediction)
    (currentPred : Option CurrentPred) : Option CurrentPred :=
  if len < 10 then currentPred
  else
    match currentPred with
    | none => some (switchTo sc useAlt)
    | some p =>
      if (best sc).1 = p.primary then
        some { p with score := (best sc).2, roundsHeld := p.roundsHeld + 1,
                      alt := if useAlt then some (second sc).1 else none }
      else if toDouble (best sc).2 ≥ jsMul p.score (12 / 10) then some (switchTo sc useAlt)
      else if lastTwoWins predictions p.primary &&
          decide (toDouble (best sc).2 < jsMul p.score (11 / 10)) then
        some { p with roundsHeld := p.roundsHeld + 1 }
      else if p.roundsHeld ≥ 3 then some (switchTo sc useAlt)
      else some { p with roundsHeld := p.roundsHeld + 1 }

/-- The stabilization effect run on a state: it fires after a render in which
`scores`, `numbers.length` or `useAltDocena` changed. -/
def runEffect (s : State) : State :=
  { s with currentPred := (stabilize s.numbers.length (scores s.numbers s.analyzeLast)
      s.useAltDocena s.predictions s.currentPred) }

/-! ## Outcome evaluator -/

/-- `copy.map((p) => p).reverse().findIndex((p) => p.result === null)`; the
JavaScript `-1` is `none`. -/
def lastPendingIndex (copy : List Prediction) : Option Nat :=
  copy.reverse.findIdx? fun p => p.result.isNone

/-- `won = primaryHit || altHit` with
`primaryHit = pred.predictedDocena === realDoc` and
`altHit = pred.altPred && pred.altPred === realDoc` (an `altPred` of `null` or `0`
is falsy). -/
def won (pred : Prediction) (num : Int) : Bool :=
  let realDoc := getDocena num
  let primaryHit := decide (some pred.predictedDocena = realDoc)
  let altHit :=
    match pred.altPred with
    | some a => decide (a ≠ 0) && decide (some a = realDoc)
    | none => false
  primaryHit || altHit

/-- The stake index after a resolution: `0` on a win; on a loss
`Math.min(i + 1, FIB.length - 1)` for `'Fuerte'` and `i` for the other labels. -/
def nextFiboIndex (isWin : Bool) (predScore : ℚ) (i : Nat) : Nat :=
  if isWin then 0
  else
    match strengthLabel predScore with
    | Strength.fuerte => min (i + 1) (FIB.length - 1)
    | Strength.moderada => i
    | Strength.debil => i

/-- The updater passed to `setPredictions` in `addNumber`, together with the
`setBotStats` and `setFiboIndex` calls it makes. -/
def resolvePending (s : State) (num : Int) : State :=
  match lastPendingIndex s.predictions with
  | none => s
  | some k =>
    let realIndex := s.predictions.length - 1 - k
    match s.predictions.get? realIndex with
    | none => s
    | some pred =>
      if pred.result = none then
        let w := won pred num
        { s with
          predictions := s.predictions.set realIndex
            { pred with result := some (if w then Verdict.win else Verdict.loss),
                        numberWhenEvaluated := some num }
          botStats := { won := s.botStats.won + (if w then 1 else 0),
                        lost := s.botStats.lost + (if w then 0 else 1) }
          fiboIndex := nextFiboIndex w pred.score s.fiboIndex }
      else s

/-- The record built by the timer callback of `addNumber`. The callback is a
closure of the render in which `addNumber` was called, so `currentPred`,
`scores`, `counts`, `totalAnalyzed` and `useAltDocena` are those of the state `s`
that the handler saw. `Object.entries(scores)` has the keys `"1", "2", "3"` and
is sorted like `entries`; a key is a non-empty string, hence truthy. -/
def newPred (s : State) : Prediction :=
  let sc := scores s.numbers s.analyzeLast
  let primary :=
    match s.currentPred with
    | some p => p.primary
    | none => (best sc).1
  let alt := if s.useAltDocena then some (second sc).1 else none
  let predScore := sc primary
  let window := lastNumbers s.numbers s.analyzeLast
  { predictedDocena := primary, altPred := alt, score := predScore,
    strength := strengthLabel predScore,
    prob := (counts window primary : ℚ) / (totalAnalyzed window : ℚ) * 100,
    result := none, numberWhenEvaluated := none }

/-- `Number.isInteger(num) && 0 <= num && num <= 36` on a finite number. -/
def validOutcome (num : ℚ) : Bool :=
  num.isInt && decide (0 ≤ num) && decide (num ≤ 36)

/-- `addNumber(num)` (the spec's `acceptOutcome`): reject an invalid input;
otherwise resolve the pending record, append the number (both updates are
batched into one render), let the stabilization effect run on the new log and
the resolved history, and finally let the timer append the record `newPred s`
built from the values the handler closed over. -/
def addNumber (s : State) (num : ℚ) : State :=
  if !validOutcome num then s
  else
    let s1 := resolvePending s num.num
    let s2 := runEffect { s1 with numbers := s1.numbers ++ [num.num] }
    { s2 with predictions := s2.predictions ++ [newPred s] }

/-- The updater of `setPredictions` in `handleDeleteLast`: pop the last record
when it is pending. -/
def popPending (p : List Prediction) : List Prediction :=
  match p.getLast? with
  | some r => if r.result = none then p.dropLast else p
  | none => p

/-- `handleDeleteLast` (the spec's `deleteLastOutcome`): `numbers.slice(0, -1)`,
pop a pending last record; the log changed, so the stabilization effect runs. -/
def handleDeleteLast (s : State) : State :=
  runEffect { s with numbers := s.numbers.dropLast, predictions := popPending s.predictions }

/-- `handleResetAll` once confirmed (the spec's `resetAll`). -/
def handleResetAll (s : State) : State :=
  runEffect { s with numbers := [], predictions := [], botStats := { won := 0, lost := 0 },
                     fiboIndex := 0, currentPred := none }

/-- States reached from `initialState` by the three operations. -/
inductive Reachable : State → Prop where
  | init : Reachable initialState
  | add (s : State) (num : ℚ) : Reachable s → Reachable (addNumber s num)
  | delete (s : State) : Reachable s → Reachable (handleDeleteLast s)
  | reset (s : State) : Reachable s → Reachable (handleResetAll s)

/-- Feed a list of inputs to `addNumber`, one after the other. -/
def addAll (s : State) (nums : List ℚ) : State := nums.foldl addNumber s

/-- The record `r` once resolved by the outcome `num`
(`{ ...pred, result: won ? 'win' : 'loss', numberWhenEvaluated: num }`). -/
def resolved (r : Prediction) (num : Int) : Prediction :=
  { r with result := some (if won r num then Verdict.win else Verdict.loss),
           numberWhenEvaluated := some num }

/-- Every record of the history, except possibly the last one, is resolved. -/
def PendingOnlyLast (l : List Prediction) : Prop :=
  ∀ q ∈ l.dropLast, q.result ≠ none

/-- States reached from `initialState` by `addNumber` and `handleResetAll` only. -/
inductive ReachableNoDelete : State → Prop where
  | init : ReachableNoDelete initialState
  | add (s : State) (num : ℚ) : ReachableNoDelete s → ReachableNoDelete (addNumber s num)
  | reset (s : State) : ReachableNoDelete s → ReachableNoDelete (handleResetAll s)

/-! ## Pleno recommender -/

/-- `Number.MAX_SAFE_INTEGER`, the `last` given to a number never seen. -/
def MAX_SAFE_INTEGER : Nat := 2 ^ 53 - 1

/-- `start` in `recommendPlenos`: `d === 1 ? 1 : d === 2 ? 13 : 25`. -/
def plenoStart (d : Nat) : Int := if d = 1 then 1 else if d = 2 then 13 else 25

/-- `end` in `recommendPlenos`: `d === 1 ? 12 : d === 2 ? 24 : 36`. -/
def plenoEnd (d : Nat) : Int := if d = 1 then 12 else if d = 2 then 24 else 36

/-- `Object.keys(lastApp)` after `for (let n = start; n <= end; n++) lastApp[n] = null`:
the integer keys `start, ..., end` in ascending order. -/
def plenoKeys (start stop : Int) : List Int :=
  (List.range (stop - start + 1).toNat).map fun (i : Nat) => start + (i : Int)

/-- The backward loop of `recommendPlenos` that fills `lastApp`; `rev` is the part
of the log still to scan, most recent first, and `gap` the loop counter:
`if (num >= start && num <= end && lastApp[num] === null) lastApp[num] = gap`. -/
def lastAppScan (start stop : Int) : List Int → Nat → (Int → Option Nat) → Int → Option Nat
  | [], _, lastApp => lastApp
  | num :: rest, gap, lastApp =>
    lastAppScan start stop rest (gap + 1)
      (if start ≤ num ∧ num ≤ stop ∧ lastApp num = none then
        Function.update lastApp num (some gap)
      else lastApp)

/-- The object `lastApp` once the loop over the full log has run. -/
def lastApp (numbers : List Int) (start stop : Int) : Int → Option Nat :=
  lastAppScan start stop numbers.reverse 0 (fun _ => none)

/-- The comparator `(a, b) => b.last - a.last || a.n - b.n` is not positive:
`a` may stand before `b`. An entry is the pair `(n, last)`. -/
def plenoBefore (a b : Int × Nat) : Prop :=
  b.2 < a.2 ∨ (b.2 = a.2 ∧ a.1 ≤ b.1)

instance plenoBeforeDecidable : DecidableRel plenoBefore := fun a b =>
  inferInstanceAs (Decidable (b.2 < a.2 ∨ (b.2 = a.2 ∧ a.1 ≤ b.1)))

/-- The array `arr` of `recommendPlenos` before sorting. -/
def plenoEntries (numbers : List Int) (start stop : Int) : List (Int × Nat) :=
  (plenoKeys start stop).map fun n =>
    (n, match lastApp numbers start stop n with
        | none => MAX_SAFE_INTEGER
        | some g => g)

/-- `recommendPlenos(d, take)` (the source's default `take` is `6`): `[0]` for the
zero dozen; otherwise the entries sorted with the comparator, cut to the first
`take`, mapped to their number. -/
def recommendPlenos (numbers : List Int) (d : Nat) (take : Nat) : List Int :=
  if d = 0 then [0]
  else
    (((plenoEntries numbers (plenoStart d) (plenoEnd d)).insertionSort plenoBefore).take
      take).map fun x => x.1

/-- Spec, the scan behind "gap since its last occurrence in the full log": over
the log most recent first, the position of the first outcome equal to `n`. -/
def plenoGapScan (n : Int) : List Int → Nat → Option Nat
  | [], _ => none
  | x :: rest, gap => if x = n then some gap else plenoGapScan n rest (gap + 1)

/-- Spec: the gap since the last occurrence of `n` in the full log; `none` when
`n` never occurred (an infinite gap). -/
def plenoGap (numbers : List Int) (n : Int) : Option Nat :=
  plenoGapScan n numbers.reverse 0

/-- Spec: `a` is ranked before `b`: descending by gap, a never-seen number
before any seen one, ties broken by ascending number. -/
def moreOverdue (numbers : List Int) (a b : Int) : Prop :=
  match plenoGap numbers a, plenoGap numbers b with
  | none, none => a < b
  | none, some _ => True
  | some _, none => False
  | some x, some y => y < x ∨ (y = x ∧ a < b)

/-- The state after accepting nine times the outcome `1`. -/
def ninePlays : State := addAll initialState [1, 1, 1, 1, 1, 1, 1, 1, 1]

/-- The state after accepting ten times the outcome `1`. -/
def tenPlays : State := addAll initialState [1, 1, 1, 1, 1, 1, 1, 1, 1, 1]

/-- The state after accepting `1` eight times, then `13`, `13`, `1`. -/
def elevenPlays : State := addAll initialState [1, 1, 1, 1, 1, 1, 1, 1, 13, 13, 1]

/-- A log of 31 outcomes after which the stabilizer holds D1 with the stored score
`0.34`; the next outcome `13` brings D3 to `0.408`. -/
def thresholdLog : List ℚ :=
  [13, 0, 25, 1, 1, 1, 1, 1, 13, 25, 25, 25, 25, 25, 1, 1, 1, 1, 13, 0, 0, 1, 1, 1, 25, 25, 25,
    1, 1, 1, 13]

/-- A log of 12 outcomes after which the stabilizer holds D1 with the stored score
`0.44` for 3 rounds, the last resolved records being wins for D1; the next
outcome `13` brings D3 to `0.484`. -/
def protectionLog : List ℚ := [0, 0, 1, 0, 0, 1, 25, 25, 13, 13, 1, 1]

/-- A log of 10 outcomes that ends with the stabilizer entering at D1 (`0.64`);
on its first 9 outcomes D2 scores `0.733`. -/
def youngLog : List ℚ := [13, 13, 13, 13, 13, 1, 1, 1, 1, 13]

/-- A log of 10 outcomes that ends with the stabilizer entering at D1 (`0.64`)
after wins for D1; on its first 9 outcomes D2 scores `0.533`. -/
def twoWinsLog : List ℚ := [1, 1, 1, 1, 1, 1, 13, 13, 1, 1]

/-! ## Auxiliary lemmas -/

theorem validOutcome_intCast (n : Int) (h0 : 0 ≤ n) (h1 : n ≤ 36) :
    validOutcome (n : ℚ) = true := by
  have h36 : ((n : ℚ) ≤ 36) := by exact_mod_cast h1
  have h00 : ((0 : ℚ) ≤ n) := by exact_mod_cast h0
  simp [validOutcome, Rat.isInt, h00, h36]

theorem validOutcome_iff (num : ℚ) :
    validOutcome num = true ↔ ∃ k : Int, 0 ≤ k ∧ k ≤ 36 ∧ num = k := by
  constructor
  · intro h
    simp only [validOutcome, Bool.and_eq_true, decide_eq_true_eq, Rat.isInt, Nat.beq_eq_true_eq,
      beq_iff_eq] at h
    obtain ⟨⟨hd, h0⟩, h1⟩ := h
    have hk : ((num.num : Int) : ℚ) = num := (Rat.den_eq_one_iff num).1 hd
    refine ⟨num.num, ?_, ?_, hk.symm⟩
    · rw [← hk] at h0; exact_mod_cast h0
    · rw [← hk] at h1; exact_mod_cast h1
  · rintro ⟨k, h0, h1, rfl⟩
    exact validOutcome_intCast k h0 h1

theorem lastPendingIndex_split (pre post : List Prediction) (r : Prediction)
    (hr : r.result = none) (hpost : ∀ q ∈ post, q.result ≠ none) :
    lastPendingIndex (pre ++ r :: post) = some post.length := by
  have hnone : List.findIdx? (fun p : Prediction => p.result.isNone) post.reverse = none := by
    rw [List.findIdx?_eq_none_iff]
    intro x hx
    have := hpost x (List.mem_reverse.1 hx)
    cases hres : x.result with
    | none => exact absurd hres this
    | some v => simp
  simp [lastPendingIndex, List.findIdx?_append, hnone, hr]

theorem lastPendingIndex_none (l : List Prediction) (h : ∀ q ∈ l, q.result ≠ none) :
    lastPendingIndex l = none := by
  unfold lastPendingIndex
  rw [List.findIdx?_eq_none_iff]
  intro x hx
  have := h x (List.mem_reverse.1 hx)
  cases hres : x.result with
  | none => exact absurd hres this
  | some v => simp


theorem resolvePending_split (s : State) (num : Int) (pre post : List Prediction)
    (r : Prediction) (hs : s.predictions = pre ++ r :: post) (hr : r.result = none)
    (hpost : ∀ q ∈ post, q.result ≠ none) :
    resolvePending s num =
      { s with
        predictions := pre ++ resolved r num :: post
        botStats := { won := s.botStats.won + (if won r num then 1 else 0),
                      lost := s.botStats.lost + (if won r num then 0 else 1) }
        fiboIndex := nextFiboIndex (won r num) r.score s.fiboIndex } := by
  have hidx : s.predictions.length - 1 - post.length = pre.length := by
    simp [hs]
  have hget : s.predictions.get? pre.length = some r := by
    rw [hs, List.get?_eq_getElem?, List.getElem?_append_right (le_refl _)]
    simp
  have hset : ∀ x, s.predictions.set pre.length x = pre ++ x :: post := by
    intro x; simp [hs]
  unfold resolvePending
  rw [hs, lastPendingIndex_split pre post r hr hpost, ← hs]
  simp only [hidx, hget, hr, hset, if_true, resolved]

theorem resolvePending_none (s : State) (num : Int)
    (h : ∀ q ∈ s.predictions, q.result ≠ none) : resolvePending s num = s := by
  unfold resolvePending
  rw [lastPendingIndex_none _ h]

theorem resolvePending_frame (s : State) (num : Int) :
    (resolvePending s num).numbers = s.numbers ∧
    (resolvePending s num).analyzeLast = s.analyzeLast ∧
    (resolvePending s num).useAltDocena = s.useAltDocena ∧
    (resolvePending s num).currentPred = s.currentPred := by
  unfold resolvePending
  cases lastPendingIndex s.predictions with
  | none => simp
  | some k =>
    dsimp only
    cases s.predictions.get? (s.predictions.length - 1 - k) with
    | none => simp
    | some pred =>
      dsimp only
      split <;> simp

theorem addNumber_valid (s : State) (n : Int) (h0 : 0 ≤ n) (h1 : n ≤ 36) :
    addNumber s (n : ℚ) =
      { numbers := s.numbers ++ [n], analyzeLast := s.analyzeLast,
        useAltDocena := s.useAltDocena,
        predictions := (resolvePending s n).predictions ++ [newPred s],
        botStats := (resolvePending s n).botStats,
        fiboIndex := (resolvePending s n).fiboIndex,
        currentPred := stabilize (s.numbers.length + 1) (scores (s.numbers ++ [n]) s.analyzeLast)
          s.useAltDocena (resolvePending s n).predictions s.currentPred } := by
  obtain ⟨e1, e2, e3, e4⟩ := resolvePending_frame s n
  unfold addNumber
  rw [validOutcome_intCast n h0 h1]
  dsimp only [runEffect]
  rw [if_neg (by decide), Rat.num_intCast, e1, e2, e3, e4]
  simp only [List.length_append, List.length_singleton]

theorem addNumber_invalid (s : State) (num : ℚ) (h : validOutcome num = false) :
    addNumber s num = s := by
  unfold addNumber
  rw [h]
  rfl

theorem won_iff (r : Prediction) (n : Int) (halt : ∀ a, r.altPred = some a → 1 ≤ a ∧ a ≤ 3) :
    won r n = true ↔
      (getDocena n = some r.predictedDocena ∨ ∃ a, r.altPred = some a ∧ getDocena n = some a) := by
  unfold won
  cases halt_eq : r.altPred with
  | none =>
    simp only [Bool.or_false, decide_eq_true_eq]
    constructor
    · intro h; exact Or.inl h.symm
    · rintro (h | ⟨b, hb, _⟩)
      · exact h.symm
      · cases hb
  | some a =>
    have ha := halt a halt_eq
    have ha0 : a ≠ 0 := by omega
    simp only [ha0, ne_eq, not_false_eq_true, decide_True, Bool.true_and, Bool.or_eq_true,
      decide_eq_true_eq]
    constructor
    · rintro (h | h)
      · exact Or.inl h.symm
      · exact Or.inr ⟨a, rfl, h.symm⟩
    · rintro (h | ⟨b, hb, h⟩)
      · exact Or.inl h.symm
      · cases hb
        exact Or.inr h.symm

theorem resolved_result_cases (r : Prediction) (n : Int) :
    ((resolved r n).result = some Verdict.win ↔ won r n = true) ∧
    ((resolved r n).result = some Verdict.loss ↔ won r n = false) := by
  unfold resolved
  cases won r n <;> simp

/-! ## The claims -/

/-- C1: an input that is not an integer in [0,36] is rejected by `addNumber`
and changes nothing: the whole state, and so the outcome log, the prediction
history, the bot counts, the stake index and the current prediction, is the one
before the call. -/
theorem addNumber_rejects_invalid (s : State) (num : ℚ)
    (h : ¬ ∃ k : Int, 0 ≤ k ∧ k ≤ 36 ∧ num = k) :
    addNumber s num = s ∧
      (addNumber s num).numbers = s.numbers ∧
      (addNumber s num).predictions = s.predictions ∧
      (addNumber s num).botStats = s.botStats ∧
      (addNumber s num).fiboIndex = s.fiboIndex ∧
      (addNumber s num).currentPred = s.currentPred := by
  have hv : validOutcome num = false := by
    cases hb : validOutcome num with
    | false => rfl
    | true => exact absurd ((validOutcome_iff num).1 hb) h
  have e := addNumber_invalid s num hv
  rw [e]
  exact ⟨rfl, rfl, rfl, rfl, rfl, rfl⟩

/-- Witness for C1: `37`, `-1` and `5/2` offered to the state reached by
accepting `1` (which holds a pending record). -/
theorem addNumber_rejects_invalid_witness :
    (¬ ∃ k : Int, 0 ≤ k ∧ k ≤ 36 ∧ (37 : ℚ) = k) ∧
      addNumber (addNumber initialState 1) 37 = addNumber initialState 1 ∧
      addNumber (addNumber initialState 1) (-1) = addNumber initialState 1 ∧
      addNumber (addNumber initialState 1) (5 / 2) = addNumber initialState 1 :=
  ⟨fun h => absurd ((validOutcome_iff 37).2 h) (by decide!),
   (addNumber_rejects_invalid (addNumber initialState 1) 37
      (fun h => absurd ((validOutcome_iff 37).2 h) (by decide!))).1,
   (addNumber_rejects_invalid (addNumber initialState 1) (-1)
      (fun h => absurd ((validOutcome_iff (-1)).2 h) (by decide!))).1,
   (addNumber_rejects_invalid (addNumber initialState 1) (5 / 2)
      (fun h => absurd ((validOutcome_iff (5 / 2)).2 h) (by decide!))).1⟩

/-- C2: when the history is `pre ++ r :: post` with `r` pending and nothing
pending after it (`r` is the pending record `addNumber` looks for), and the
alternate dozen of `r`, when present, is one of D1, D2, D3, a valid outcome `n`
replaces `r` by a record `r2` that differs from `r` only in `result` and in
`numberWhenEvaluated = n`; `r2` is a win exactly when `getDocena n` is the
predicted dozen of `r` or `r` has an alternate dozen equal to `getDocena n`, and
a loss otherwise; the outcome `0` resolves a D1/D2/D3 prediction as a loss. -/
theorem addNumber_resolves_pending (s : State) (pre post : List Prediction) (r : Prediction)
    (n : Int) (h0 : 0 ≤ n) (h1 : n ≤ 36)
    (hs : s.predictions = pre ++ r :: post) (hr : r.result = none)
    (hpost : ∀ q ∈ post, q.result ≠ none)
    (halt : ∀ a, r.altPred = some a → 1 ≤ a ∧ a ≤ 3) :
    ∃ r2 : Prediction,
      (addNumber s (n : ℚ)).predictions = pre ++ r2 :: post ++ [newPred s] ∧
      r2 = { r with result := r2.result, numberWhenEvaluated := some n } ∧
      (r2.result = some Verdict.win ↔
        (getDocena n = some r.predictedDocena ∨
          ∃ a, r.altPred = some a ∧ getDocena n = some a)) ∧
      (r2.result = some Verdict.loss ↔
        ¬ (getDocena n = some r.predictedDocena ∨
          ∃ a, r.altPred = some a ∧ getDocena n = some a)) ∧
      (n = 0 → 1 ≤ r.predictedDocena → r2.result = some Verdict.loss) := by
  obtain ⟨hw, hl⟩ := resolved_result_cases r n
  have hiff := won_iff r n halt
  refine ⟨resolved r n, ?_, rfl, hw.trans hiff, ?_, ?_⟩
  · rw [addNumber_valid s n h0 h1, resolvePending_split s n pre post r hs hr hpost]
  · rw [hl, ← hiff]; simp
  · intro hn hp
    rw [hl, ← Bool.not_eq_true, hiff]
    subst hn
    rintro (h | ⟨a, ha, h⟩)
    · simp [getDocena] at h; omega
    · have := halt a ha
      simp [getDocena] at h; omega

/-- Witness for C2: the pending record created by accepting `1` (predicted
dozen 1, alternate 2) is resolved by the outcome `5`. -/
theorem addNumber_resolves_pending_witness :
    ∃ r2 : Prediction,
      (addNumber (addNumber initialState 1) ((5 : Int) : ℚ)).predictions =
        [] ++ r2 :: [] ++ [newPred (addNumber initialState 1)] ∧
      r2 = { newPred initialState with result := r2.result, numberWhenEvaluated := some 5 } ∧
      (r2.result = some Verdict.win ↔
        (getDocena 5 = some (newPred initialState).predictedDocena ∨
          ∃ a, (newPred initialState).altPred = some a ∧ getDocena 5 = some a)) ∧
      (r2.result = some Verdict.loss ↔
        ¬ (getDocena 5 = some (newPred initialState).predictedDocena ∨
          ∃ a, (newPred initialState).altPred = some a ∧ getDocena 5 = some a)) ∧
      ((5 : Int) = 0 → 1 ≤ (newPred initialState).predictedDocena →
        r2.result = some Verdict.loss) :=
  addNumber_resolves_pending (addNumber initialState 1) [] [] (newPred initialState) 5
    (by decide) (by decide) (by decide!) (by decide!) (by simp)
    (by
      intro a ha
      have e : (newPred initialState).altPred = some 2 := by decide!
      rw [e] at ha
      cases ha
      exact ⟨by decide, by decide⟩)

/-- C3: when `addNumber` resolves the pending record `r` (score `r.score`) at
stake index `s.fiboIndex`: on a win the new index is `0`; on a loss with
`r.score > 0.65` it is `min (s.fiboIndex + 1) 7`; on a loss with
`r.score ≤ 0.65` it stays `s.fiboIndex`. -/
theorem addNumber_stake_index (s : State) (pre post : List Prediction) (r : Prediction)
    (n : Int) (h0 : 0 ≤ n) (h1 : n ≤ 36)
    (hs : s.predictions = pre ++ r :: post) (hr : r.result = none)
    (hpost : ∀ q ∈ post, q.result ≠ none) :
    ∃ r2 : Prediction,
      (addNumber s (n : ℚ)).predictions = pre ++ r2 :: post ++ [newPred s] ∧
      (r2.result = some Verdict.win ∨ r2.result = some Verdict.loss) ∧
      (r2.result = some Verdict.win → (addNumber s (n : ℚ)).fiboIndex = 0) ∧
      (r2.result = some Verdict.loss → r.score > 65 / 100 →
        (addNumber s (n : ℚ)).fiboIndex = min (s.fiboIndex + 1) 7) ∧
      (r2.result = some Verdict.loss → r.score ≤ 65 / 100 →
        (addNumber s (n : ℚ)).fiboIndex = s.fiboIndex) := by
  obtain ⟨hw, hl⟩ := resolved_result_cases r n
  have hfib : (addNumber s (n : ℚ)).fiboIndex = nextFiboIndex (won r n) r.score s.fiboIndex := by
    rw [addNumber_valid s n h0 h1, resolvePending_split s n pre post r hs hr hpost]
  refine ⟨resolved r n, ?_, ?_, ?_, ?_, ?_⟩
  · rw [addNumber_valid s n h0 h1, resolvePending_split s n pre post r hs hr hpost]
  · cases hb : won r n
    · exact Or.inr (hl.2 hb)
    · exact Or.inl (hw.2 hb)
  · intro h
    rw [hfib, hw.1 h]; rfl
  · intro h hsc
    rw [hfib, hl.1 h]
    simp [nextFiboIndex, strengthLabel, hsc, FIB]
  · intro h hsc
    rw [hfib, hl.1 h]
    have hns : ¬ r.score > 65 / 100 := not_lt.2 hsc
    by_cases h45 : r.score > 45 / 100 <;> simp [nextFiboIndex, strengthLabel, hns, h45]

/-- Witness for C3: after nine outcomes `1` the pending record has score `0.8`;
the outcome `25` resolves it at stake index `0`. -/
theorem addNumber_stake_index_witness :
    ∃ r2 : Prediction,
      (addNumber ninePlays ((25 : Int) : ℚ)).predictions =
        ninePlays.predictions.dropLast ++ r2 :: [] ++ [newPred ninePlays] ∧
      (r2.result = some Verdict.win ∨ r2.result = some Verdict.loss) ∧
      (r2.result = some Verdict.win → (addNumber ninePlays ((25 : Int) : ℚ)).fiboIndex = 0) ∧
      (r2.result = some Verdict.loss → (4 / 5 : ℚ) > 65 / 100 →
        (addNumber ninePlays ((25 : Int) : ℚ)).fiboIndex = min (ninePlays.fiboIndex + 1) 7) ∧
      (r2.result = some Verdict.loss → (4 / 5 : ℚ) ≤ 65 / 100 →
        (addNumber ninePlays ((25 : Int) : ℚ)).fiboIndex = ninePlays.fiboIndex) :=
  addNumber_stake_index ninePlays ninePlays.predictions.dropLast []
    { predictedDocena := 1, altPred := some 2, score := 4 / 5, strength := Strength.fuerte,
      prob := 100, result := none, numberWhenEvaluated := none }
    25 (by decide) (by decide) (by decide!) rfl (by simp)

theorem nil_or_snoc {α : Type} (l : List α) : l = [] ∨ ∃ pre r, l = pre ++ [r] := by
  rcases List.eq_nil_or_concat l with h | ⟨pre, r, h⟩
  · exact Or.inl h
  · exact Or.inr ⟨pre, r, by rw [h, List.concat_eq_append]⟩

theorem pendingOnlyLast_of_all_resolved (l : List Prediction) (x : Prediction)
    (h : ∀ q ∈ l, q.result ≠ none) : PendingOnlyLast (l ++ [x]) := by
  intro q hq
  rw [List.dropLast_concat] at hq
  exact h q hq

theorem resolvePending_all_resolved (s : State) (n : Int) (h : PendingOnlyLast s.predictions) :
    ∀ q ∈ (resolvePending s n).predictions, q.result ≠ none := by
  rcases nil_or_snoc s.predictions with hnil | ⟨pre, r, hcat⟩
  · rw [resolvePending_none s n (by rw [hnil]; simp), hnil]
    simp
  · have hpre : ∀ q ∈ pre, q.result ≠ none := by
      intro q hq
      apply h q
      rw [hcat, List.dropLast_concat]
      exact hq
    cases hr : r.result with
    | none =>
      rw [resolvePending_split s n pre [] r hcat hr (by simp)]
      intro q hq
      simp only [List.mem_append, List.mem_singleton] at hq
      rcases hq with hq | hq
      · exact hpre q hq
      · rw [hq]; simp [resolved]
    | some v =>
      have hall : ∀ q ∈ s.predictions, q.result ≠ none := by
        intro q hq
        rw [hcat] at hq
        simp only [List.mem_append, List.mem_singleton] at hq
        rcases hq with hq | hq
        · exact hpre q hq
        · rw [hq, hr]; simp
      rw [resolvePending_none s n hall]
      exact hall

theorem newPred_pending (s : State) : (newPred s).result = none := rfl

theorem popPending_pendingOnlyLast (l : List Prediction) (h : PendingOnlyLast l) :
    PendingOnlyLast (popPending l) := by
  unfold popPending
  cases hl : l.getLast? with
  | none => exact h
  | some r =>
    dsimp only
    split
    · intro q hq
      exact h q (List.mem_of_mem_dropLast hq)
    · exact h

theorem addNumber_pendingOnlyLast (s : State) (num : ℚ) (h : PendingOnlyLast s.predictions) :
    PendingOnlyLast (addNumber s num).predictions := by
  cases hv : validOutcome num with
  | false => rw [addNumber_invalid s num hv]; exact h
  | true =>
    obtain ⟨k, h0, h1, rfl⟩ := (validOutcome_iff num).1 hv
    rw [addNumber_valid s k h0 h1]
    exact pendingOnlyLast_of_all_resolved _ _ (resolvePending_all_resolved s k h)

theorem reachable_pendingOnlyLast (s : State) (h : Reachable s) :
    PendingOnlyLast s.predictions := by
  induction h with
  | init => intro q hq; simp [initialState] at hq
  | add s num _ ih => exact addNumber_pendingOnlyLast s num ih
  | delete s _ ih => exact popPending_pendingOnlyLast _ ih
  | reset s _ _ => intro q hq; simp [handleResetAll, runEffect] at hq

/-- C4: in every state reached from the initial state by `addNumber` (any
input), `handleDeleteLast` and `handleResetAll`, the prediction history holds at
most one pending record, and a pending record sits at the last position. -/
theorem reachable_one_pending_last (s : State) (h : Reachable s) :
    s.predictions.countP (fun q => q.result.isNone) ≤ 1 ∧
      ∀ (i : Nat) (q : Prediction), s.predictions.get? i = some q → q.result = none →
        i + 1 = s.predictions.length := by
  have hinv := reachable_pendingOnlyLast s h
  rcases nil_or_snoc s.predictions with hnil | ⟨pre, r, hcat⟩
  · rw [hnil]; simp
  · have hpre : ∀ q ∈ pre, q.result ≠ none := by
      intro q hq
      apply hinv q
      rw [hcat, List.dropLast_concat]
      exact hq
    constructor
    · rw [hcat, List.countP_append]
      have h0 : List.countP (fun q : Prediction => q.result.isNone) pre = 0 := by
        rw [List.countP_eq_zero]
        intro q hq
        have := hpre q hq
        cases hres : q.result with
        | none => exact absurd hres this
        | some v => simp
      rw [h0]
      simp only [zero_add]
      exact (List.countP_le_length _).trans (by simp)
    · intro i q hi hq
      rw [hcat] at hi ⊢
      rw [List.length_append, List.length_singleton]
      by_contra hne
      have hlen : i < (pre ++ [r]).length := by
        rw [List.get?_eq_getElem?] at hi
        exact (List.getElem?_eq_some_iff.1 hi).1
      rw [List.length_append, List.length_singleton] at hlen
      have hlt : i < pre.length := by omega
      rw [List.get?_eq_getElem?, List.getElem?_append_left hlt] at hi
      exact hpre q (List.getElem?_mem hi) hq

/-- Witness for C4: the state after accepting `1`, `5`, deleting and accepting `30`. -/
theorem reachable_one_pending_last_witness :
    Reachable (addNumber (handleDeleteLast (addNumber (addNumber initialState 1) 5)) 30) ∧
    (addNumber (handleDeleteLast (addNumber (addNumber initialState 1) 5)) 30).predictions.countP
        (fun q => q.result.isNone) ≤ 1 ∧
      ∀ (i : Nat) (q : Prediction),
        (addNumber (handleDeleteLast (addNumber (addNumber initialState 1) 5)) 30).predictions.get? i
            = some q →
        q.result = none →
        i + 1 =
          (addNumber (handleDeleteLast (addNumber (addNumber initialState 1) 5)) 30).predictions.length :=
  ⟨Reachable.add _ _ (Reachable.delete _ (Reachable.add _ _ (Reachable.add _ _ Reachable.init))),
   reachable_one_pending_last _
    (Reachable.add _ _ (Reachable.delete _ (Reachable.add _ _ (Reachable.add _ _ Reachable.init))))⟩

theorem reachable_addAll (nums : List ℚ) : ∀ s : State, Reachable s → Reachable (addAll s nums) := by
  induction nums with
  | nil => intro s h; exact h
  | cons x xs ih => intro s h; exact ih _ (Reachable.add s x h)

theorem reachableNoDelete_addAll (nums : List ℚ) :
    ∀ s : State, ReachableNoDelete s → ReachableNoDelete (addAll s nums) := by
  induction nums with
  | nil => intro s h; exact h
  | cons x xs ih => intro s h; exact ih _ (ReachableNoDelete.add s x h)

theorem popPending_snoc_pending (l : List Prediction) (x : Prediction) (hx : x.result = none) :
    popPending (l ++ [x]) = l := by
  simp [popPending, hx]

theorem stabilize_short (len : Nat) (sc : Nat → ℚ) (useAlt : Bool) (preds : List Prediction)
    (cp : Option CurrentPred) (h : len < 10) : stabilize len sc useAlt preds cp = cp := by
  simp [stabilize, h]

/-- C5 fails as stated: from the reachable state after nine outcomes `1`,
accepting `25` and deleting it leaves the prediction history, the bot counts,
the stake index and the current prediction different from what they were. -/
theorem deleteLast_does_not_restore :
    Reachable ninePlays ∧
      (handleDeleteLast (addNumber ninePlays 25)).predictions ≠ ninePlays.predictions ∧
      (handleDeleteLast (addNumber ninePlays 25)).botStats ≠ ninePlays.botStats ∧
      (handleDeleteLast (addNumber ninePlays 25)).fiboIndex ≠ ninePlays.fiboIndex ∧
      (handleDeleteLast (addNumber ninePlays 25)).currentPred ≠ ninePlays.currentPred :=
  ⟨reachable_addAll _ _ Reachable.init, by decide!, by decide!, by decide!, by decide!⟩

/-- C5 (amended): `handleDeleteLast` right after `addNumber` with a valid `n`
restores the outcome log and retracts only the pending record that `addNumber`
appended: the resolution of the earlier pending record, the bot counts and the
stake index stay as `addNumber` left them. When the state had no pending record
the history, the bot counts and the stake index are those before `n`; when its
log had fewer than 9 outcomes the current prediction is the one before `n`. -/
theorem deleteLast_after_addNumber (s : State) (n : Int) (h0 : 0 ≤ n) (h1 : n ≤ 36) :
    (handleDeleteLast (addNumber s (n : ℚ))).numbers = s.numbers ∧
      (handleDeleteLast (addNumber s (n : ℚ))).predictions =
        (addNumber s (n : ℚ)).predictions.dropLast ∧
      (∀ (pre : List Prediction) (r : Prediction), s.predictions = pre ++ [r] → r.result = none →
        (handleDeleteLast (addNumber s (n : ℚ))).predictions = pre ++ [resolved r n]) ∧
      (handleDeleteLast (addNumber s (n : ℚ))).botStats = (addNumber s (n : ℚ)).botStats ∧
      (handleDeleteLast (addNumber s (n : ℚ))).fiboIndex = (addNumber s (n : ℚ)).fiboIndex ∧
      ((∀ q ∈ s.predictions, q.result ≠ none) →
        (handleDeleteLast (addNumber s (n : ℚ))).predictions = s.predictions ∧
        (handleDeleteLast (addNumber s (n : ℚ))).botStats = s.botStats ∧
        (handleDeleteLast (addNumber s (n : ℚ))).fiboIndex = s.fiboIndex) ∧
      (s.numbers.length < 9 →
        (handleDeleteLast (addNumber s (n : ℚ))).currentPred = s.currentPred) := by
  have hp : (handleDeleteLast (addNumber s (n : ℚ))).predictions =
      (resolvePending s n).predictions := by
    rw [addNumber_valid s n h0 h1]
    exact popPending_snoc_pending _ _ (newPred_pending s)
  refine ⟨?_, ?_, ?_, rfl, rfl, ?_, ?_⟩
  · rw [addNumber_valid s n h0 h1]
    simp [handleDeleteLast, runEffect]
  · rw [hp, addNumber_valid s n h0 h1]
    simp
  · intro pre r hs hr
    rw [hp, resolvePending_split s n pre [] r hs hr (by simp)]
  · intro hall
    have e := resolvePending_none s n hall
    refine ⟨by rw [hp, e], ?_, ?_⟩
    · show (addNumber s (n : ℚ)).botStats = s.botStats
      rw [addNumber_valid s n h0 h1, e]
    · show (addNumber s (n : ℚ)).fiboIndex = s.fiboIndex
      rw [addNumber_valid s n h0 h1, e]
  · intro hlen
    rw [addNumber_valid s n h0 h1]
    simp only [handleDeleteLast, runEffect, List.dropLast_concat]
    rw [stabilize_short _ _ _ _ _ (by omega), stabilize_short _ _ _ _ _ (by omega)]

/-- Witness for C5 (amended): accepting `5` after `1`, then deleting. -/
theorem deleteLast_after_addNumber_witness :
    (handleDeleteLast (addNumber (addNumber initialState 1) ((5 : Int) : ℚ))).numbers =
      (addNumber initialState 1).numbers ∧
    (handleDeleteLast (addNumber (addNumber initialState 1) ((5 : Int) : ℚ))).botStats =
      (addNumber (addNumber initialState 1) ((5 : Int) : ℚ)).botStats :=
  ⟨(deleteLast_after_addNumber (addNumber initialState 1) 5 (by decide) (by decide)).1,
   (deleteLast_after_addNumber (addNumber initialState 1) 5 (by decide) (by decide)).2.2.2.1⟩

/-- C6 fails as stated: deleting the tenth outcome leaves a log of 9 outcomes
with a current prediction still set. -/
theorem short_log_with_prediction :
    Reachable (handleDeleteLast tenPlays) ∧
      (handleDeleteLast tenPlays).numbers.length < 10 ∧
      (handleDeleteLast tenPlays).currentPred ≠ none :=
  ⟨Reachable.delete _ (reachable_addAll _ _ Reachable.init), by decide!, by decide!⟩

/-- C6 (amended): in every state reached from the initial state by `addNumber`
and `handleResetAll` (no deletion), a log of fewer than 10 outcomes comes with no
current prediction. -/
theorem short_log_no_prediction (s : State) (h : ReachableNoDelete s)
    (hlen : s.numbers.length < 10) : s.currentPred = none := by
  induction h with
  | init => rfl
  | add s num _ ih =>
    cases hv : validOutcome num with
    | false =>
      rw [addNumber_invalid s num hv] at hlen ⊢
      exact ih hlen
    | true =>
      obtain ⟨k, h0, h1, rfl⟩ := (validOutcome_iff num).1 hv
      rw [addNumber_valid s k h0 h1] at hlen ⊢
      simp only [List.length_append, List.length_singleton] at hlen
      show stabilize _ _ _ _ _ = none
      rw [stabilize_short _ _ _ _ _ hlen]
      exact ih (by omega)
  | reset s _ _ => simp [handleResetAll, runEffect, stabilize]

/-- Witness for C6 (amended): the state after the outcomes `1, 14, 30`. -/
theorem short_log_no_prediction_witness :
    ReachableNoDelete (addAll initialState [1, 14, 30]) ∧
      (addAll initialState [1, 14, 30]).numbers.length < 10 ∧
      (addAll initialState [1, 14, 30]).currentPred = none :=
  ⟨reachableNoDelete_addAll _ _ ReachableNoDelete.init, by decide!,
   short_log_no_prediction _ (reachableNoDelete_addAll _ _ ReachableNoDelete.init) (by decide!)⟩

theorem best_spec (sc : Nat → ℚ) :
    ((best sc).1 = 1 ∨ (best sc).1 = 2 ∨ (best sc).1 = 3) ∧ (best sc).2 = sc (best sc).1 ∧
      sc 1 ≤ (best sc).2 ∧ sc 2 ≤ (best sc).2 ∧ sc 3 ≤ (best sc).2 := by
  unfold best sortedEntries
  simp only [List.map, List.insertionSort, List.orderedInsert]
  by_cases h23 : sc 3 ≤ sc 2 <;> by_cases h12 : sc 2 ≤ sc 1 <;> by_cases h13 : sc 3 ≤ sc 1 <;>
    simp [h23, h12, h13, List.orderedInsert] <;> (first | linarith | (constructor <;> linarith))

theorem pow2_eq_zpow (e : Int) : pow2 e = (2 : ℚ) ^ e := by
  unfold pow2
  split
  · rename_i h
    have he : e = ((e.toNat : Nat) : Int) := (Int.toNat_of_nonneg h).symm
    conv_rhs => rw [he]
    rw [zpow_natCast]
    push_cast
    rfl
  · rename_i h
    have hn : (0 : Int) ≤ -e := by omega
    have he : e = -(((-e).toNat : Nat) : Int) := by
      rw [Int.toNat_of_nonneg hn]; omega
    conv_rhs => rw [he]
    rw [zpow_neg, zpow_natCast]
    push_cast
    rw [one_div]

theorem pow2_pos (e : Int) : 0 < pow2 e := by
  rw [pow2_eq_zpow]
  positivity

theorem pow2_sub_52 (e : Int) : pow2 (e - 52) = pow2 e / 2 ^ 52 := by
  rw [pow2_eq_zpow, pow2_eq_zpow, zpow_sub₀ (by norm_num : (2 : ℚ) ≠ 0)]
  norm_num

theorem roundHalfEven_err (r : ℚ) : |((roundHalfEven r : Int) : ℚ) - r| ≤ 1 / 2 := by
  have h1 : ((⌊r⌋ : Int) : ℚ) ≤ r := Int.floor_le r
  have h2 : r < ((⌊r⌋ : Int) : ℚ) + 1 := Int.lt_floor_add_one r
  unfold roundHalfEven
  rw [abs_le]
  dsimp only
  split
  · constructor <;> linarith
  · split
    · push_cast
      constructor <;> linarith
    · split
      · constructor <;> linarith
      · push_cast
        constructor <;> linarith

theorem roundPos_err (x : ℚ) (hx : 0 < x) : |roundPos x - x| ≤ x / 2 ^ 53 := by
  unfold roundPos
  split
  · rename_i h
    have hu : 0 < pow2 (binExp x - 52) := pow2_pos _
    have hr := roundHalfEven_err (x / pow2 (binExp x - 52))
    have hx52 : pow2 (binExp x - 52) ≤ x / 2 ^ 52 := by
      rw [pow2_sub_52]
      exact div_le_div_of_nonneg_right h.1 (by positivity)
    have key : ((roundHalfEven (x / pow2 (binExp x - 52)) : Int) : ℚ) * pow2 (binExp x - 52) - x =
        (((roundHalfEven (x / pow2 (binExp x - 52)) : Int) : ℚ) - x / pow2 (binExp x - 52)) *
          pow2 (binExp x - 52) := by
      field_simp
    rw [key, abs_mul, abs_of_pos hu]
    calc |((roundHalfEven (x / pow2 (binExp x - 52)) : Int) : ℚ) - x / pow2 (binExp x - 52)| *
          pow2 (binExp x - 52)
        ≤ 1 / 2 * (x / 2 ^ 52) := mul_le_mul hr hx52 (le_of_lt hu) (by norm_num)
      _ = x / 2 ^ 53 := by ring
  · simp only [sub_self, abs_zero]
    positivity

theorem toDouble_bounds (x : ℚ) (hx : 0 ≤ x) :
    x * (1 - 1 / 2 ^ 53) ≤ toDouble x ∧ toDouble x ≤ x * (1 + 1 / 2 ^ 53) := by
  unfold toDouble
  by_cases h0 : x = 0
  · simp [h0]
  · have hpos : 0 < x := lt_of_le_of_ne hx (Ne.symm h0)
    rw [if_neg h0, if_neg (not_lt.2 hx)]
    have h := abs_le.1 (roundPos_err x hpos)
    constructor <;> linarith [h.1, h.2]

theorem jsMul_bounds (a c : ℚ) (ha : 0 ≤ a) (hc : 0 ≤ c) :
    a * c * (1 - 1 / 2 ^ 53) ^ 3 ≤ jsMul a c ∧ jsMul a c ≤ a * c * (1 + 1 / 2 ^ 53) ^ 3 := by
  obtain ⟨hal, hau⟩ := toDouble_bounds a ha
  obtain ⟨hcl, hcu⟩ := toDouble_bounds c hc
  have hm : (0 : ℚ) ≤ 1 - 1 / 2 ^ 53 := by norm_num
  have hp : (0 : ℚ) ≤ 1 + 1 / 2 ^ 53 := by norm_num
  have hA : 0 ≤ toDouble a := le_trans (mul_nonneg ha hm) hal
  have hC : 0 ≤ toDouble c := le_trans (mul_nonneg hc hm) hcl
  obtain ⟨hpl, hpu⟩ := toDouble_bounds (toDouble a * toDouble c) (mul_nonneg hA hC)
  have hlow : a * (1 - 1 / 2 ^ 53) * (c * (1 - 1 / 2 ^ 53)) ≤ toDouble a * toDouble c :=
    mul_le_mul hal hcl (mul_nonneg hc hm) hA
  have hup : toDouble a * toDouble c ≤ a * (1 + 1 / 2 ^ 53) * (c * (1 + 1 / 2 ^ 53)) :=
    mul_le_mul hau hcu hC (mul_nonneg ha hp)
  unfold jsMul
  constructor
  · calc a * c * (1 - 1 / 2 ^ 53) ^ 3
        = a * (1 - 1 / 2 ^ 53) * (c * (1 - 1 / 2 ^ 53)) * (1 - 1 / 2 ^ 53) := by ring
      _ ≤ toDouble a * toDouble c * (1 - 1 / 2 ^ 53) := mul_le_mul_of_nonneg_right hlow hm
      _ ≤ toDouble (toDouble a * toDouble c) := hpl
  · calc toDouble (toDouble a * toDouble c)
        ≤ toDouble a * toDouble c * (1 + 1 / 2 ^ 53) := hpu
      _ ≤ a * (1 + 1 / 2 ^ 53) * (c * (1 + 1 / 2 ^ 53)) * (1 + 1 / 2 ^ 53) :=
          mul_le_mul_of_nonneg_right hup hp
      _ = a * c * (1 + 1 / 2 ^ 53) ^ 3 := by ring

theorem log2Fuel_le (fuel : Nat) : ∀ n : Nat, 1 ≤ n → 2 ^ log2Fuel fuel n ≤ n := by
  induction fuel with
  | zero => intro n hn; simpa [log2Fuel] using hn
  | succ f ih =>
    intro n hn
    unfold log2Fuel
    split
    · simpa using hn
    · rename_i h
      have h2 : 1 ≤ n / 2 := by omega
      have := ih (n / 2) h2
      rw [pow_succ]
      omega

theorem lt_log2Fuel (fuel : Nat) : ∀ n : Nat, n < 2 ^ (fuel + 1) → n < 2 ^ (log2Fuel fuel n + 1) := by
  induction fuel with
  | zero => intro n hn; simpa [log2Fuel] using hn
  | succ f ih =>
    intro n hn
    unfold log2Fuel
    split
    · rename_i h; simpa using h
    · rename_i h
      have h2 : n / 2 < 2 ^ (f + 1) := by
        rw [pow_succ] at hn
        omega
      have := ih (n / 2) h2
      rw [pow_succ]
      omega

theorem binExp_spec (x : ℚ) (hx : 0 < x) (hn : x.num.natAbs < 2 ^ (2048 + 1))
    (hd : x.den < 2 ^ (2048 + 1)) : pow2 (binExp x) ≤ x ∧ x < pow2 (binExp x + 1) := by
  have hnum : 0 < x.num := Rat.num_pos.2 hx
  have ha1 : 1 ≤ x.num.natAbs := by omega
  have hb1 : 1 ≤ x.den := x.den_pos
  have hla := log2Fuel_le 2048 x.num.natAbs ha1
  have hua := lt_log2Fuel 2048 x.num.natAbs hn
  have hlb := log2Fuel_le 2048 x.den hb1
  have hub := lt_log2Fuel 2048 x.den hd
  have hxeq : x = (x.num.natAbs : ℚ) / (x.den : ℚ) := by
    have h1 : ((x.num.natAbs : Nat) : Int) = x.num := by omega
    have h2 : ((x.num.natAbs : Nat) : ℚ) = ((x.num : Int) : ℚ) := by
      conv_rhs => rw [← h1]
      exact (Int.cast_natCast _).symm
    rw [h2]
    exact (Rat.num_div_den x).symm
  have hbpos : (0 : ℚ) < (x.den : ℚ) := by exact_mod_cast hb1
  have hlaq : (2 : ℚ) ^ log2Fuel 2048 x.num.natAbs ≤ (x.num.natAbs : ℚ) := by exact_mod_cast hla
  have huaq : (x.num.natAbs : ℚ) < (2 : ℚ) ^ (log2Fuel 2048 x.num.natAbs + 1) := by
    exact_mod_cast hua
  have hlbq : (2 : ℚ) ^ log2Fuel 2048 x.den ≤ (x.den : ℚ) := by exact_mod_cast hlb
  have hubq : (x.den : ℚ) < (2 : ℚ) ^ (log2Fuel 2048 x.den + 1) := by exact_mod_cast hub
  have h2ne : (2 : ℚ) ≠ 0 := by norm_num
  have hxB : x * (x.den : ℚ) = (x.num.natAbs : ℚ) := by
    rw [eq_div_iff (ne_of_gt hbpos)] at hxeq
    exact hxeq
  have hub2 : (x.den : ℚ) ≤ 2 ^ log2Fuel 2048 x.den * 2 := by
    rw [← pow_succ]; exact le_of_lt hubq
  have hua2 : (x.num.natAbs : ℚ) < 2 ^ log2Fuel 2048 x.num.natAbs * 2 := by
    rw [← pow_succ]; exact huaq
  have hlow : pow2 ((log2Fuel 2048 x.num.natAbs : Int) - (log2Fuel 2048 x.den : Int) - 1) ≤ x := by
    rw [pow2_eq_zpow, zpow_sub₀ h2ne, zpow_sub₀ h2ne, zpow_natCast, zpow_natCast, zpow_one]
    rw [div_div, div_le_iff₀ (by positivity)]
    have hm := mul_le_mul_of_nonneg_left hub2 (le_of_lt hx)
    linarith [hm, hlaq, hxB]
  have hhigh : x < pow2 ((log2Fuel 2048 x.num.natAbs : Int) - (log2Fuel 2048 x.den : Int) + 1) := by
    rw [pow2_eq_zpow, zpow_add₀ h2ne, zpow_sub₀ h2ne, zpow_natCast, zpow_natCast, zpow_one]
    rw [div_mul_eq_mul_div, lt_div_iff₀ (by positivity)]
    have hm := mul_le_mul_of_nonneg_left hlbq (le_of_lt hx)
    linarith [hm, hua2, hxB]
  unfold binExp
  dsimp only
  split
  · rename_i h
    refine ⟨hlow, ?_⟩
    rw [sub_add_cancel]
    exact h
  · rename_i h
    exact ⟨not_lt.1 h, hhigh⟩

/-- For a positive `x` with numerator and denominator below `2 ^ (2048 + 1)`,
`roundPos` is the rounding to a 53-bit significand: `x` scaled by its unit in the
last place lies in `[2 ^ 52, 2 ^ 53)` and is rounded to the nearest integer. -/
theorem roundPos_eq (x : ℚ) (hx : 0 < x) (hn : x.num.natAbs < 2 ^ (2048 + 1))
    (hd : x.den < 2 ^ (2048 + 1)) :
    roundPos x = (roundHalfEven (x / pow2 (binExp x - 52)) : ℚ) * pow2 (binExp x - 52) ∧
      2 ^ 52 ≤ x / pow2 (binExp x - 52) ∧ x / pow2 (binExp x - 52) < 2 ^ 53 := by
  have hspec := binExp_spec x hx hn hd
  have hu : 0 < pow2 (binExp x - 52) := pow2_pos _
  refine ⟨?_, ?_, ?_⟩
  · unfold roundPos
    rw [if_pos hspec]
  · rw [le_div_iff₀ hu, pow2_sub_52]
    have := hspec.1
    have h52 : (0 : ℚ) < 2 ^ 52 := by positivity
    rw [mul_div_cancel₀ _ (ne_of_gt h52)]
    exact this
  · rw [div_lt_iff₀ hu, pow2_sub_52]
    have h := hspec.2
    rw [pow2_eq_zpow, zpow_add₀ (by norm_num : (2 : ℚ) ≠ 0), zpow_one, ← pow2_eq_zpow] at h
    have h52 : (0 : ℚ) < 2 ^ 52 := by positivity
    calc x < pow2 (binExp x) * 2 := h
      _ = 2 ^ 53 * (pow2 (binExp x) / 2 ^ 52) := by field_simp; ring

theorem grid_ge_12 (j k : Nat) (hj : j ≤ 1000) (h : 6 * j < 5 * k) :
    jsMul ((j : ℚ) / 1000) (12 / 10) ≤ toDouble ((k : ℚ) / 1000) := by
  have hJ0 : (0 : ℚ) ≤ (j : ℚ) := by positivity
  have hJ : (j : ℚ) ≤ 1000 := by exact_mod_cast hj
  have hK : (6 : ℚ) * j + 1 ≤ 5 * k := by exact_mod_cast h
  have hb := (jsMul_bounds ((j : ℚ) / 1000) (12 / 10) (by positivity) (by norm_num)).2
  have hk := (toDouble_bounds ((k : ℚ) / 1000) (by positivity)).1
  refine le_trans hb (le_trans ?_ hk)
  norm_num
  linarith

theorem grid_lt_12 (j k : Nat) (hj : j ≤ 1000) (h : 5 * k < 6 * j) :
    toDouble ((k : ℚ) / 1000) < jsMul ((j : ℚ) / 1000) (12 / 10) := by
  have hJ0 : (0 : ℚ) ≤ (j : ℚ) := by positivity
  have hJ : (j : ℚ) ≤ 1000 := by exact_mod_cast hj
  have hK : (5 : ℚ) * k + 1 ≤ 6 * j := by exact_mod_cast h
  have hb := (jsMul_bounds ((j : ℚ) / 1000) (12 / 10) (by positivity) (by norm_num)).1
  have hk := (toDouble_bounds ((k : ℚ) / 1000) (by positivity)).2
  refine lt_of_le_of_lt hk (lt_of_lt_of_le ?_ hb)
  norm_num
  linarith

theorem grid_ge_11 (j k : Nat) (hj : j ≤ 1000) (h : 11 * j < 10 * k) :
    jsMul ((j : ℚ) / 1000) (11 / 10) ≤ toDouble ((k : ℚ) / 1000) := by
  have hJ0 : (0 : ℚ) ≤ (j : ℚ) := by positivity
  have hJ : (j : ℚ) ≤ 1000 := by exact_mod_cast hj
  have hK : (11 : ℚ) * j + 1 ≤ 10 * k := by exact_mod_cast h
  have hb := (jsMul_bounds ((j : ℚ) / 1000) (11 / 10) (by positivity) (by norm_num)).2
  have hk := (toDouble_bounds ((k : ℚ) / 1000) (by positivity)).1
  refine le_trans hb (le_trans ?_ hk)
  norm_num
  linarith

theorem grid_lt_11 (j k : Nat) (hj : j ≤ 1000) (h : 10 * k < 11 * j) :
    toDouble ((k : ℚ) / 1000) < jsMul ((j : ℚ) / 1000) (11 / 10) := by
  have hJ0 : (0 : ℚ) ≤ (j : ℚ) := by positivity
  have hJ : (j : ℚ) ≤ 1000 := by exact_mod_cast hj
  have hK : (10 : ℚ) * k + 1 ≤ 11 * j := by exact_mod_cast h
  have hb := (jsMul_bounds ((j : ℚ) / 1000) (11 / 10) (by positivity) (by norm_num)).1
  have hk := (toDouble_bounds ((k : ℚ) / 1000) (by positivity)).2
  refine lt_of_le_of_lt hk (lt_of_lt_of_le ?_ hb)
  norm_num
  linarith

theorem grid_order (j k : Nat) (s b : ℚ) (hs : s = (j : ℚ) / 1000) (hb : b = (k : ℚ) / 1000) :
    (b > s * (12 / 10) → 6 * j < 5 * k) ∧ (b < s * (12 / 10) → 5 * k < 6 * j) ∧
      (b > s * (11 / 10) → 11 * j < 10 * k) ∧ (b < s * (11 / 10) → 10 * k < 11 * j) := by
  subst hs hb
  refine ⟨fun h => ?_, fun h => ?_, fun h => ?_, fun h => ?_⟩
  · have : (6 : ℚ) * j < 5 * k := by linarith
    exact_mod_cast this
  · have : (5 : ℚ) * k < 6 * j := by linarith
    exact_mod_cast this
  · have : (11 : ℚ) * j < 10 * k := by linarith
    exact_mod_cast this
  · have : (10 : ℚ) * k < 11 * j := by linarith
    exact_mod_cast this

/-- C7 fails as stated: after the 31 outcomes of `thresholdLog` the stabilizer
holds D1 with stored score `0.34` (`roundsHeld = 1`); the outcome `13` makes D3
the best dozen with score `0.408 ≥ 1.2 * 0.34`, yet the stabilizer keeps D1 with
`roundsHeld = 2`: the double product `0.34 * 1.2` is `0.40800000000000003`. -/
theorem threshold_equality_holds :
    Reachable (addAll initialState thresholdLog) ∧
      (addAll initialState thresholdLog).currentPred =
        some { primary := 1, alt := some 3, score := 17 / 50, roundsHeld := 1 } ∧
      10 ≤ (addNumber (addAll initialState thresholdLog) 13).numbers.length ∧
      best (scores (addNumber (addAll initialState thresholdLog) 13).numbers 30) =
        (3, 51 / 125) ∧
      (51 / 125 : ℚ) ≥ 12 / 10 * (17 / 50) ∧
      toDouble (51 / 125) < jsMul (17 / 50) (12 / 10) ∧
      (addNumber (addAll initialState thresholdLog) 13).currentPred =
        some { primary := 1, alt := some 3, score := 17 / 50, roundsHeld := 2 } :=
  ⟨reachable_addAll _ _ Reachable.init, by decide!, by decide!, by decide!, by decide!,
    by decide!, by decide!⟩

/-- C7 (amended): with at least 10 outcomes, an active prediction `p` whose
stored score is a 3-decimal score `j / 1000` in [0,1], and a best-scoring dozen
`b = (best sc).1` (no dozen of D1..D3 scores higher) different from `p.primary`
whose 3-decimal score is strictly above `1.2 * p.score`, the stabilizer switches
to `b` with `roundsHeld = 1` and the stored score `sc b`, whatever `p.roundsHeld`
and the prediction history are. -/
theorem stabilize_switches_above_threshold (len : Nat) (sc : Nat → ℚ) (useAlt : Bool)
    (preds : List Prediction) (p : CurrentPred) (j k : Nat) (hlen : 10 ≤ len)
    (hne : (best sc).1 ≠ p.primary) (hj : j ≤ 1000) (hs : p.score = (j : ℚ) / 1000)
    (hb : sc (best sc).1 = (k : ℚ) / 1000) (hgt : sc (best sc).1 > p.score * (12 / 10)) :
    stabilize len sc useAlt preds (some p) =
        some { primary := (best sc).1, alt := if useAlt then some (second sc).1 else none,
               score := sc (best sc).1, roundsHeld := 1 } ∧
      ((best sc).1 = 1 ∨ (best sc).1 = 2 ∨ (best sc).1 = 3) ∧
      sc 1 ≤ sc (best sc).1 ∧ sc 2 ≤ sc (best sc).1 ∧ sc 3 ≤ sc (best sc).1 := by
  obtain ⟨hmem, hval, hb1, hb2, hb3⟩ := best_spec sc
  rw [hval] at hb1 hb2 hb3
  refine ⟨?_, hmem, hb1, hb2, hb3⟩
  have hlen2 : ¬ len < 10 := by omega
  have hge : toDouble (sc (best sc).1) ≥ jsMul p.score (12 / 10) := by
    rw [hb, hs]
    exact grid_ge_12 j k hj ((grid_order j k _ _ hs hb).1 hgt)
  simp only [stabilize, hlen2, if_false, hne, switchTo, hval]
  rw [if_pos hge]

/-- Witness for C7 (amended): primary D1 with stored score `0.5` held for 2
rounds, and a recompute whose best dozen is D2 with score `0.65 > 0.6`. -/
theorem stabilize_switches_above_threshold_witness :
    stabilize 10 (fun d => if d = 1 then 1 / 2 else if d = 2 then 13 / 20 else 1 / 10) true []
        (some { primary := 1, alt := some 3, score := 1 / 2, roundsHeld := 2 }) =
      some { primary := 2, alt := some 1, score := 13 / 20, roundsHeld := 1 } :=
  (stabilize_switches_above_threshold 10
      (fun d => if d = 1 then 1 / 2 else if d = 2 then 13 / 20 else 1 / 10) true []
      { primary := 1, alt := some 3, score := 1 / 2, roundsHeld := 2 } 500 650
      (by decide) (by decide!) (by decide) (by norm_num) (by decide!) (by decide!)).1.trans
    (by decide!)

/-- C8 fails on the code: after nine outcomes `1`, accepting `13` leaves the
stabilizer at primary 1, alternate 3, score `0.94` (the score of dozen 1 on the
log that includes `13`), while the appended pending record has alternate 2 and
score `0.8`, the values of the log before `13`. And after the outcomes
`1` (eight times), `13`, `13`, `1`, accepting `1` appends a pending record whose
alternate dozen is its predicted dozen. -/
theorem newPred_is_stale :
    (addNumber ninePlays 13).currentPred =
        some { primary := 1, alt := some 3, score := 47 / 50, roundsHeld := 1 } ∧
      scores (addNumber ninePlays 13).numbers (addNumber ninePlays 13).analyzeLast 1 = 47 / 50 ∧
      (addNumber ninePlays 13).predictions.getLast? =
        some { predictedDocena := 1, altPred := some 2, score := 4 / 5,
               strength := Strength.fuerte, prob := 100, result := none,
               numberWhenEvaluated := none } ∧
      ((addNumber elevenPlays 1).predictions.getLast?.map
        fun r => (r.predictedDocena, r.altPred, r.result)) = some (1, some 1, none) := by
  decide!

theorem foldl_countStep (l : List Int) (c : Nat → Nat) (d : Nat) :
    l.foldl countStep c d = c d + l.countP (fun x => decide (getDocena x = some d)) := by
  induction l generalizing c with
  | nil => simp
  | cons x xs ih =>
    rw [List.foldl_cons, ih, List.countP_cons]
    unfold countStep
    cases h : getDocena x with
    | none => simp
    | some e =>
      by_cases hed : e = d
      · subst hed; simp; omega
      · have hde : d ≠ e := fun h => hed h.symm
        simp [Function.update, hed, hde]

theorem counts_eq_countP (l : List Int) (d : Nat) :
    counts l d = l.countP (fun x => decide (getDocena x = some d)) := by
  unfold counts
  rw [foldl_countStep]
  simp

theorem getDocena_range (x : Int) (h0 : 0 ≤ x) (h1 : x ≤ 36) :
    getDocena x = some 0 ∨ getDocena x = some 1 ∨ getDocena x = some 2 ∨ getDocena x = some 3 := by
  unfold getDocena
  by_cases c0 : x = 0
  · simp [c0]
  · by_cases c1 : 1 ≤ x ∧ x ≤ 12
    · simp [c0, c1]
    · by_cases c2 : 13 ≤ x ∧ x ≤ 24
      · simp [c0, c1, c2]
      · have c3 : 25 ≤ x ∧ x ≤ 36 := by omega
        simp [c0, c1, c2, c3]

theorem countP_dozens_sum (l : List Int) (h : ∀ x ∈ l, 0 ≤ x ∧ x ≤ 36) :
    l.countP (fun x => decide (getDocena x = some 1)) +
      l.countP (fun x => decide (getDocena x = some 2)) +
      l.countP (fun x => decide (getDocena x = some 3)) +
      l.countP (fun x => decide (getDocena x = some 0)) = l.length := by
  induction l with
  | nil => simp
  | cons x xs ih =>
    have ih2 := ih (fun y hy => h y (List.mem_cons_of_mem _ hy))
    have hx := h x (List.mem_cons_self _ _)
    simp only [List.countP_cons, List.length_cons]
    rcases getDocena_range x hx.1 hx.2 with e | e | e | e <;> simp [e] <;> omega

theorem lastNumbers_length (numbers : List Int) (N : Nat) (hN : 1 ≤ N) :
    (lastNumbers numbers N).length = min N numbers.length := by
  unfold lastNumbers
  rw [if_neg (by omega), List.length_drop]
  omega

theorem lastNumbers_subset (numbers : List Int) (N : Nat) :
    ∀ x ∈ lastNumbers numbers N, x ∈ numbers := by
  intro x hx
  unfold lastNumbers at hx
  split at hx
  · exact hx
  · exact List.mem_of_mem_drop hx

/-- C9: for a log of outcomes in [0,36] and a window size `N ≥ 1`, the four
counts over `numbers.slice(-N)` add up to `min N (log length)`. -/
theorem counts_sum_eq_window (numbers : List Int) (N : Nat) (hN : 1 ≤ N)
    (hr : ∀ x ∈ numbers, 0 ≤ x ∧ x ≤ 36) :
    counts (lastNumbers numbers N) 1 + counts (lastNumbers numbers N) 2 +
      counts (lastNumbers numbers N) 3 + counts (lastNumbers numbers N) 0 =
      min N numbers.length := by
  simp only [counts_eq_countP]
  rw [countP_dozens_sum _ (fun x hx => hr x (lastNumbers_subset numbers N x hx))]
  exact lastNumbers_length numbers N hN

/-- Witness for C9: the log `0, 5, 13, 36, 24, 7` with window 4. -/
theorem counts_sum_eq_window_witness :
    counts (lastNumbers [0, 5, 13, 36, 24, 7] 4) 1 + counts (lastNumbers [0, 5, 13, 36, 24, 7] 4) 2 +
      counts (lastNumbers [0, 5, 13, 36, 24, 7] 4) 3 + counts (lastNumbers [0, 5, 13, 36, 24, 7] 4) 0 =
      min 4 ([0, 5, 13, 36, 24, 7] : List Int).length :=
  counts_sum_eq_window [0, 5, 13, 36, 24, 7] 4 (by decide) (by decide)

theorem absenceScan_cons (d : Nat) (x : Int) (rest : List Int) (g : Nat) :
    absenceScan d (x :: rest) g =
      if getDocena x = some d then some g else absenceScan d rest (g + 1) := rfl

theorem absenceScan_succ (d : Nat) (l : List Int) (g : Nat) :
    absenceScan d l (g + 1) = (absenceScan d l g).map (fun a => a + 1) := by
  induction l generalizing g with
  | nil => rfl
  | cons x xs ih =>
    unfold absenceScan
    by_cases h : getDocena x = some d
    · simp [h]
    · simp only [h, if_false]
      exact ih (g + 1)

theorem absenceScan_eq_none (d : Nat) (l : List Int) (g : Nat) :
    absenceScan d l g = none ↔ ∀ x ∈ l, getDocena x ≠ some d := by
  induction l generalizing g with
  | nil => simp [absenceScan]
  | cons x xs ih =>
    unfold absenceScan
    by_cases h : getDocena x = some d
    · simp [h]
    · simp [h, ih]

/-- C10: `absence(d)` is unknown exactly when no outcome of the log maps to
`d`; after appending `n` it is `0` when `getDocena n = d`, and otherwise the
former absence plus one when that was known, unknown when it was not. -/
theorem absence_append (L : List Int) (d : Nat) (n : Int) :
    (absence L d = none ↔ ∀ x ∈ L, getDocena x ≠ some d) ∧
      (getDocena n = some d → absence (L ++ [n]) d = some 0) ∧
      (getDocena n ≠ some d → ∀ a, absence L d = some a → absence (L ++ [n]) d = some (a + 1)) ∧
      (getDocena n ≠ some d → absence L d = none → absence (L ++ [n]) d = none) := by
  have hstep : getDocena n ≠ some d →
      absence (L ++ [n]) d = (absence L d).map (fun a => a + 1) := by
    intro h
    unfold absence
    rw [List.reverse_append, List.reverse_singleton, List.singleton_append, absenceScan_cons,
      if_neg h]
    exact absenceScan_succ d L.reverse 0
  refine ⟨?_, ?_, ?_, ?_⟩
  · unfold absence
    rw [absenceScan_eq_none]
    simp
  · intro h
    unfold absence
    rw [List.reverse_append, List.reverse_singleton, List.singleton_append, absenceScan_cons,
      if_pos h]
  · intro h a ha
    rw [hstep h, ha]; rfl
  · intro h ha
    rw [hstep h, ha]; rfl

theorem weights_cases (abs : Nat → Option Nat) (stk : Nat → Nat) (d : Nat) :
    weights abs stk d = (6 / 10, 4 / 10) ∨ weights abs stk d = (8 / 10, 2 / 10) ∨
      weights abs stk d = (3 / 10, 7 / 10) := by
  unfold weights
  cases abs d with
  | none =>
    dsimp only
    by_cases h : stk d ≥ 2
    · simp [h]
    · simp [h]
  | some a =>
    dsimp only
    by_cases ha : a ≥ 5
    · simp [ha]
    · by_cases h : stk d ≥ 2
      · simp [ha, h]
      · simp [ha, h]

theorem weights_sum (abs : Nat → Option Nat) (stk : Nat → Nat) (d : Nat) :
    (weights abs stk d).1 + (weights abs stk d).2 = 1 ∧ 0 ≤ (weights abs stk d).1 ∧
      0 ≤ (weights abs stk d).2 := by
  rcases weights_cases abs stk d with h | h | h <;> rw [h] <;> norm_num

theorem maxAbs_ge (abs : Nat → Option Nat) (d a : Nat) (hd : d ≤ 3) (ha : abs d = some a) :
    a ≤ maxAbs abs := by
  have hd4 : d = 0 ∨ d = 1 ∨ d = 2 ∨ d = 3 := by omega
  unfold maxAbs
  rcases hd4 with rfl | rfl | rfl | rfl <;>
    cases h0 : abs 0 <;> cases h1 : abs 1 <;> cases h2 : abs 2 <;> cases h3 : abs 3 <;>
    simp_all

theorem absenceNorm_bounds (abs : Nat → Option Nat) (d : Nat) (hd : d ≤ 3) :
    0 ≤ absenceNorm abs d ∧ absenceNorm abs d ≤ 1 := by
  unfold absenceNorm
  by_cases hm : maxAbs abs > 0
  · rw [if_pos hm]
    have hpos : (0 : ℚ) < (maxAbs abs : ℚ) := by exact_mod_cast hm
    cases ha : abs d with
    | none =>
      dsimp only
      rw [div_self (ne_of_gt hpos)]
      exact ⟨by norm_num, le_refl _⟩
    | some a =>
      dsimp only
      have hle : (a : ℚ) ≤ (maxAbs abs : ℚ) := by exact_mod_cast maxAbs_ge abs d a hd ha
      exact ⟨div_nonneg (by positivity) (le_of_lt hpos), (div_le_one hpos).2 hle⟩
  · rw [if_neg hm]
    exact ⟨le_refl _, by norm_num⟩

theorem freqNorm_bounds (cnt : Nat → Nat) (total d : Nat) (h1 : 1 ≤ total) (hc : cnt d ≤ total) :
    0 ≤ freqNorm cnt total d ∧ freqNorm cnt total d ≤ 1 := by
  unfold freqNorm
  have hpos : (0 : ℚ) < (total : ℚ) := by exact_mod_cast h1
  have hle : (cnt d : ℚ) ≤ (total : ℚ) := by exact_mod_cast hc
  exact ⟨div_nonneg (by positivity) (le_of_lt hpos), (div_le_one hpos).2 hle⟩

theorem jsRound_bounds (x : ℚ) (h0 : 0 ≤ x) (h1 : x ≤ 1) :
    0 ≤ ((jsRound (x * 1000) : Int) : ℚ) / 1000 ∧ ((jsRound (x * 1000) : Int) : ℚ) / 1000 ≤ 1 := by
  unfold jsRound
  have hlo : (0 : Int) ≤ ⌊x * 1000 + 1 / 2⌋ := by
    apply Int.floor_nonneg.2
    nlinarith
  have hhi : ⌊x * 1000 + 1 / 2⌋ ≤ (1000 : Int) := by
    have : ⌊x * 1000 + 1 / 2⌋ < (1001 : Int) := by
      rw [Int.floor_lt]
      push_cast
      nlinarith
    omega
  constructor
  · apply div_nonneg _ (by norm_num)
    exact_mod_cast hlo
  · rw [div_le_one (by norm_num)]
    exact_mod_cast hhi

theorem scoreOf_bounds (cnt : Nat → Nat) (abs : Nat → Option Nat) (stk : Nat → Nat)
    (total d : Nat) (h1 : 1 ≤ total) (hc : cnt d ≤ total) (hd : d ≤ 3) :
    0 ≤ scoreOf cnt abs stk total d ∧ scoreOf cnt abs stk total d ≤ 1 := by
  obtain ⟨hsum, hw1, hw2⟩ := weights_sum abs stk d
  obtain ⟨hf0, hf1⟩ := freqNorm_bounds cnt total d h1 hc
  obtain ⟨ha0, ha1⟩ := absenceNorm_bounds abs d hd
  unfold scoreOf
  simp only [hsum, div_one]
  apply jsRound_bounds
  · positivity
  · calc freqNorm cnt total d * (weights abs stk d).1 + absenceNorm abs d * (weights abs stk d).2
        ≤ 1 * (weights abs stk d).1 + 1 * (weights abs stk d).2 := by
          apply add_le_add
          · exact mul_le_mul_of_nonneg_right hf1 hw1
          · exact mul_le_mul_of_nonneg_right ha1 hw2
      _ = 1 := by rw [one_mul, one_mul, hsum]

theorem totalAnalyzed_pos (window : List Int) :
    1 ≤ totalAnalyzed window ∧ window.length ≤ totalAnalyzed window := by
  unfold totalAnalyzed
  exact ⟨le_max_left _ _, le_max_right _ _⟩

theorem counts_le_total (window : List Int) (d : Nat) : counts window d ≤ totalAnalyzed window := by
  rw [counts_eq_countP]
  exact (List.countP_le_length _).trans (totalAnalyzed_pos window).2

theorem scores_eq_scoreOf (numbers : List Int) (N : Nat) :
    scores numbers N = fun d =>
      scoreOf (counts (lastNumbers numbers N)) (absence numbers) (streak numbers)
        (totalAnalyzed (lastNumbers numbers N)) d := by
  unfold scores scoresOf
  have h := (totalAnalyzed_pos (lastNumbers numbers N)).1
  rw [if_neg (by omega)]

theorem scores_bounds (numbers : List Int) (N d : Nat) (hd : d ≤ 3) :
    0 ≤ scores numbers N d ∧ scores numbers N d ≤ 1 := by
  rw [scores_eq_scoreOf]
  exact scoreOf_bounds _ _ _ _ d (totalAnalyzed_pos _).1 (counts_le_total _ d) hd

/-- C11: for every log (the empty one included) and every window size, the
score of each of D1, D2, D3, rounding to 3 decimals included, lies in [0,1]. -/
theorem scores_in_unit_interval (numbers : List Int) (N d : Nat)
    (hd : d = 1 ∨ d = 2 ∨ d = 3) :
    0 ≤ scores numbers N d ∧ scores numbers N d ≤ 1 :=
  scores_bounds numbers N d (by omega)

/-- Witness for C11: dozen 2 on the log `1` (eight times), `13`, `13`, `1`. -/
theorem scores_in_unit_interval_witness :
    0 ≤ scores [1, 1, 1, 1, 1, 1, 1, 1, 13, 13, 1] 30 2 ∧
      scores [1, 1, 1, 1, 1, 1, 1, 1, 13, 13, 1] 30 2 ≤ 1 :=
  scores_in_unit_interval [1, 1, 1, 1, 1, 1, 1, 1, 13, 13, 1] 30 2 (Or.inr (Or.inl rfl))

/-- C12 fails as stated: on the log `0, 1, 1` the absence of the zero dozen
is `2`, so `maxAbs` is `2` (not `0`), and `absenceNorm` is `0` for D1 but `1` for
D2 and D3. -/
theorem maxAbs_counts_zero_dozen :
    absence [0, 1, 1] 0 = some 2 ∧ absence [0, 1, 1] 1 = some 0 ∧
      absence [0, 1, 1] 2 = none ∧ absence [0, 1, 1] 3 = none ∧
      maxAbs (absence [0, 1, 1]) = 2 ∧
      absenceNorm (absence [0, 1, 1]) 1 = 0 ∧
      absenceNorm (absence [0, 1, 1]) 2 = 1 ∧
      absenceNorm (absence [0, 1, 1]) 3 = 1 := by
  decide!

theorem foldl_max_mem (l : List Nat) (init : Nat) :
    l.foldl max init = init ∨ l.foldl max init ∈ l := by
  induction l generalizing init with
  | nil => exact Or.inl rfl
  | cons x xs ih =>
    rw [List.foldl_cons]
    rcases ih (max init x) with h | h
    · rw [h]
      rcases max_cases init x with ⟨hm, _⟩ | ⟨hm, _⟩
      · exact Or.inl hm
      · exact Or.inr (by rw [hm]; exact List.mem_cons_self _ _)
    · exact Or.inr (List.mem_cons_of_mem _ h)

theorem maxAbs_eq_foldl (abs : Nat → Option Nat) :
    maxAbs abs = (([0, 1, 2, 3].map abs).filterMap id).foldl max 0 := by
  unfold maxAbs
  dsimp only
  split
  · rfl
  · rename_i h
    have hnil : List.filterMap id ([0, 1, 2, 3].map abs) = [] :=
      List.length_eq_zero.1 (not_not.1 h)
    rw [hnil]
    rfl

theorem maxAbs_attained (abs : Nat → Option Nat) :
    maxAbs abs = 0 ∨ ∃ d, d ≤ 3 ∧ abs d = some (maxAbs abs) := by
  rw [maxAbs_eq_foldl]
  rcases foldl_max_mem (([0, 1, 2, 3].map abs).filterMap id) 0 with h | h
  · exact Or.inl h
  · right
    rw [List.mem_filterMap] at h
    obtain ⟨o, ho, hoe⟩ := h
    rw [List.mem_map] at ho
    obtain ⟨d, hd, hde⟩ := ho
    refine ⟨d, ?_, ?_⟩
    · simp only [List.mem_cons, List.mem_singleton, List.not_mem_nil, or_false] at hd
      omega
    · rw [hde]; exact hoe

/-- C12 (amended): the `maxAbs` used to normalise absence is the maximum of the
known absences of the four keys ZERO, D1, D2, D3 (`0` when none is known): it
bounds every known absence, the zero dozen's included, and when it is not `0`
it is the absence of one of the four. -/
theorem maxAbs_is_max_of_four (numbers : List Int) :
    (∀ d a, d ≤ 3 → absence numbers d = some a → a ≤ maxAbs (absence numbers)) ∧
      (maxAbs (absence numbers) = 0 ∨
        ∃ d, d ≤ 3 ∧ absence numbers d = some (maxAbs (absence numbers))) ∧
      ((∀ d, d ≤ 3 → absence numbers d = none) → maxAbs (absence numbers) = 0) := by
  refine ⟨fun d a hd ha => maxAbs_ge _ d a hd ha, maxAbs_attained _, ?_⟩
  intro hnone
  rcases maxAbs_attained (absence numbers) with h | ⟨d, hd, h⟩
  · exact h
  · rw [hnone d hd] at h
    cases h

theorem pendingOnlyLast_cases (l : List Prediction) (h : PendingOnlyLast l) :
    (∀ q ∈ l, q.result ≠ none) ∨
      ∃ pre r, l = pre ++ [r] ∧ r.result = none ∧ ∀ q ∈ pre, q.result ≠ none := by
  rcases nil_or_snoc l with hnil | ⟨pre, r, hcat⟩
  · left; rw [hnil]; simp
  · have hpre : ∀ q ∈ pre, q.result ≠ none := by
      intro q hq
      apply h q
      rw [hcat, List.dropLast_concat]
      exact hq
    cases hr : r.result with
    | none => exact Or.inr ⟨pre, r, hcat, hr, hpre⟩
    | some v =>
      left
      intro q hq
      rw [hcat] at hq
      simp only [List.mem_append, List.mem_singleton] at hq
      rcases hq with hq | hq
      · exact hpre q hq
      · rw [hq, hr]; simp

theorem popPending_of_all_resolved (l : List Prediction) (h : ∀ q ∈ l, q.result ≠ none) :
    popPending l = l := by
  unfold popPending
  cases hl : l.getLast? with
  | none => rfl
  | some r =>
    dsimp only
    rw [if_neg (h r (List.mem_of_getLast?_eq_some hl))]

theorem popPending_all_resolved (l : List Prediction) (h : PendingOnlyLast l) :
    ∀ q ∈ popPending l, q.result ≠ none := by
  rcases pendingOnlyLast_cases l h with hall | ⟨pre, r, hcat, hr, hpre⟩
  · rw [popPending_of_all_resolved l hall]; exact hall
  · rw [hcat, popPending_snoc_pending pre r hr]; exact hpre

theorem reachable_empty_log_resolved (s : State) (h : Reachable s) (hn : s.numbers = []) :
    ∀ q ∈ s.predictions, q.result ≠ none := by
  induction h with
  | init => intro q hq; simp [initialState] at hq
  | add s num _ ih =>
    cases hv : validOutcome num with
    | false =>
      rw [addNumber_invalid s num hv] at hn ⊢
      exact ih hn
    | true =>
      obtain ⟨k, h0, h1, rfl⟩ := (validOutcome_iff num).1 hv
      rw [addNumber_valid s k h0 h1] at hn
      simp at hn
  | delete s hs _ => exact popPending_all_resolved _ (reachable_pendingOnlyLast s hs)
  | reset s _ _ => intro q hq; simp [handleResetAll, runEffect] at hq

/-- C14: in a reachable state whose outcome log is empty, `handleDeleteLast`
changes nothing: the log stays empty and the prediction history, the bot
counts, the stake index and the current prediction are unchanged (such a state
has no pending record). -/
theorem deleteLast_on_empty_log (s : State) (h : Reachable s) (hn : s.numbers = []) :
    handleDeleteLast s = s ∧ (handleDeleteLast s).numbers = [] ∧
      (handleDeleteLast s).predictions = s.predictions ∧
      (handleDeleteLast s).botStats = s.botStats ∧
      (handleDeleteLast s).fiboIndex = s.fiboIndex ∧
      (handleDeleteLast s).currentPred = s.currentPred ∧
      ∀ q ∈ s.predictions, q.result ≠ none := by
  have hres := reachable_empty_log_resolved s h hn
  have e : handleDeleteLast s = s := by
    unfold handleDeleteLast runEffect
    simp only [popPending_of_all_resolved _ hres, hn, List.dropLast_nil, List.length_nil]
    rw [stabilize_short _ _ _ _ _ (by decide)]
    cases s
    simp_all
  rw [e]
  exact ⟨rfl, hn, rfl, rfl, rfl, rfl, hres⟩

/-- Witness for C14: accept `1` and `14`, then delete twice: the log is empty and
one resolved record remains. -/
theorem deleteLast_on_empty_log_witness :
    Reachable (handleDeleteLast (handleDeleteLast (addAll initialState [1, 14]))) ∧
      (handleDeleteLast (handleDeleteLast (addAll initialState [1, 14]))).numbers = [] ∧
      handleDeleteLast (handleDeleteLast (handleDeleteLast (addAll initialState [1, 14]))) =
        handleDeleteLast (handleDeleteLast (addAll initialState [1, 14])) :=
  ⟨Reachable.delete _ (Reachable.delete _ (reachable_addAll _ _ Reachable.init)), by decide!,
   (deleteLast_on_empty_log _
      (Reachable.delete _ (Reachable.delete _ (reachable_addAll _ _ Reachable.init)))
      (by decide!)).1⟩

theorem countP_verdict_of_pending (v : Verdict) (r : Prediction) (hr : r.result = none) :
    List.countP (fun q : Prediction => decide (q.result = some v)) [r] = 0 := by
  simp [hr]

theorem countP_popPending (v : Verdict) (l : List Prediction) :
    (popPending l).countP (fun q => decide (q.result = some v)) =
      l.countP (fun q => decide (q.result = some v)) := by
  unfold popPending
  cases hl : l.getLast? with
  | none => rfl
  | some r =>
    dsimp only
    split
    · rename_i hr
      obtain ⟨ys, hys⟩ := List.getLast?_eq_some_iff.1 hl
      rw [hys, List.dropLast_concat, List.countP_append, countP_verdict_of_pending v r hr]
      rfl
    · rfl

theorem resolvePending_botStats (s : State) (n : Int) (h : PendingOnlyLast s.predictions)
    (hw : s.botStats.won = s.predictions.countP (fun q => decide (q.result = some Verdict.win)))
    (hl : s.botStats.lost = s.predictions.countP (fun q => decide (q.result = some Verdict.loss))) :
    (resolvePending s n).botStats.won =
        (resolvePending s n).predictions.countP (fun q => decide (q.result = some Verdict.win)) ∧
      (resolvePending s n).botStats.lost =
        (resolvePending s n).predictions.countP (fun q => decide (q.result = some Verdict.loss)) ∧
      s.botStats.won ≤ (resolvePending s n).botStats.won ∧
      s.botStats.lost ≤ (resolvePending s n).botStats.lost ∧
      ((∃ q ∈ s.predictions, q.result = none) →
        (resolvePending s n).botStats.won + (resolvePending s n).botStats.lost =
          s.botStats.won + s.botStats.lost + 1) ∧
      ((∀ q ∈ s.predictions, q.result ≠ none) →
        (resolvePending s n).botStats.won + (resolvePending s n).botStats.lost =
          s.botStats.won + s.botStats.lost) := by
  rcases pendingOnlyLast_cases _ h with hall | ⟨pre, r, hcat, hr, hpre⟩
  · rw [resolvePending_none s n hall]
    refine ⟨hw, hl, le_refl _, le_refl _, ?_, fun _ => rfl⟩
    rintro ⟨q, hq, hqr⟩
    exact absurd hqr (hall q hq)
  · rw [resolvePending_split s n pre [] r hcat hr (by simp)]
    rw [hcat, List.countP_append, countP_verdict_of_pending _ r hr] at hw hl
    simp only [List.countP_append]
    cases hb : won r n
    · refine ⟨?_, ?_, ?_, ?_, fun _ => ?_, fun hall => ?_⟩
      · simp [resolved, hb, hw]
      · simp [resolved, hb, hl]
      · simp
      · simp
      · simp; omega
      · exact absurd hr (hall r (by rw [hcat]; simp))
    · refine ⟨?_, ?_, ?_, ?_, fun _ => ?_, fun hall => ?_⟩
      · simp [resolved, hb, hw]
      · simp [resolved, hb, hl]
      · simp
      · simp
      · simp; omega
      · exact absurd hr (hall r (by rw [hcat]; simp))

theorem reachable_botStats (s : State) (h : Reachable s) :
    s.botStats.won = s.predictions.countP (fun q => decide (q.result = some Verdict.win)) ∧
      s.botStats.lost = s.predictions.countP (fun q => decide (q.result = some Verdict.loss)) := by
  induction h with
  | init => exact ⟨rfl, rfl⟩
  | add s num hs ih =>
    cases hv : validOutcome num with
    | false => rw [addNumber_invalid s num hv]; exact ih
    | true =>
      obtain ⟨k, h0, h1, rfl⟩ := (validOutcome_iff num).1 hv
      obtain ⟨e1, e2, _⟩ := resolvePending_botStats s k (reachable_pendingOnlyLast s hs) ih.1 ih.2
      rw [addNumber_valid s k h0 h1]
      simp only [List.countP_append, countP_verdict_of_pending _ _ (newPred_pending s), add_zero]
      exact ⟨e1, e2⟩
  | delete s _ ih =>
    show s.botStats.won = (popPending s.predictions).countP _ ∧
      s.botStats.lost = (popPending s.predictions).countP _
    rw [countP_popPending, countP_popPending]
    exact ih
  | reset s _ _ => exact ⟨rfl, rfl⟩

/-- C20: in every reachable state `botStats.won` is the number of records with
result `'win'` and `botStats.lost` the number with result `'loss'`; neither
count decreases under `addNumber` (any input) or `handleDeleteLast`, and a valid
`addNumber` raises `won + lost` by exactly 1 when a pending record existed and
leaves it unchanged otherwise. -/
theorem botStats_count_records (s : State) (h : Reachable s) :
    s.botStats.won = s.predictions.countP (fun q => decide (q.result = some Verdict.win)) ∧
      s.botStats.lost = s.predictions.countP (fun q => decide (q.result = some Verdict.loss)) ∧
      (∀ num : ℚ, s.botStats.won ≤ (addNumber s num).botStats.won ∧
        s.botStats.lost ≤ (addNumber s num).botStats.lost) ∧
      (s.botStats.won ≤ (handleDeleteLast s).botStats.won ∧
        s.botStats.lost ≤ (handleDeleteLast s).botStats.lost) ∧
      (∀ n : Int, 0 ≤ n → n ≤ 36 →
        ((∃ q ∈ s.predictions, q.result = none) →
          (addNumber s (n : ℚ)).botStats.won + (addNumber s (n : ℚ)).botStats.lost =
            s.botStats.won + s.botStats.lost + 1) ∧
        ((∀ q ∈ s.predictions, q.result ≠ none) →
          (addNumber s (n : ℚ)).botStats.won + (addNumber s (n : ℚ)).botStats.lost =
            s.botStats.won + s.botStats.lost)) := by
  obtain ⟨hw, hl⟩ := reachable_botStats s h
  have hinv := reachable_pendingOnlyLast s h
  refine ⟨hw, hl, ?_, ⟨le_refl _, le_refl _⟩, ?_⟩
  · intro num
    cases hv : validOutcome num with
    | false => rw [addNumber_invalid s num hv]; exact ⟨le_refl _, le_refl _⟩
    | true =>
      obtain ⟨k, h0, h1, rfl⟩ := (validOutcome_iff num).1 hv
      obtain ⟨_, _, m1, m2, _⟩ := resolvePending_botStats s k hinv hw hl
      rw [addNumber_valid s k h0 h1]
      exact ⟨m1, m2⟩
  · intro n h0 h1
    obtain ⟨_, _, _, _, a1, a2⟩ := resolvePending_botStats s n hinv hw hl
    rw [addNumber_valid s n h0 h1]
    exact ⟨a1, a2⟩

/-- Witness for C20: the state after the outcomes `1, 14, 30, 2`, a deletion and
the outcome `25`. -/
theorem botStats_count_records_witness :
    Reachable (addNumber (handleDeleteLast (addAll initialState [1, 14, 30, 2])) 25) ∧
      (addNumber (handleDeleteLast (addAll initialState [1, 14, 30, 2])) 25).botStats.won =
        (addNumber (handleDeleteLast (addAll initialState [1, 14, 30, 2])) 25).predictions.countP
          (fun q => decide (q.result = some Verdict.win)) ∧
      (addNumber (handleDeleteLast (addAll initialState [1, 14, 30, 2])) 25).botStats.lost =
        (addNumber (handleDeleteLast (addAll initialState [1, 14, 30, 2])) 25).predictions.countP
          (fun q => decide (q.result = some Verdict.loss)) :=
  ⟨Reachable.add _ _ (Reachable.delete _ (reachable_addAll _ _ Reachable.init)),
   (botStats_count_records _
      (Reachable.add _ _ (Reachable.delete _ (reachable_addAll _ _ Reachable.init)))).1,
   (botStats_count_records _
      (Reachable.add _ _ (Reachable.delete _ (reachable_addAll _ _ Reachable.init)))).2.1⟩

theorem rank_spec (sc : Nat → ℚ) :
    ((best sc).1 = 1 ∨ (best sc).1 = 2 ∨ (best sc).1 = 3) ∧
      ((second sc).1 = 1 ∨ (second sc).1 = 2 ∨ (second sc).1 = 3) ∧
      (second sc).1 ≠ (best sc).1 ∧
      (best sc).2 = sc (best sc).1 ∧ (second sc).2 = sc (second sc).1 ∧
      (∀ d, d = 1 ∨ d = 2 ∨ d = 3 →
        sc d ≤ sc (best sc).1 ∧ (sc d = sc (best sc).1 → (best sc).1 ≤ d)) ∧
      (∀ d, d = 1 ∨ d = 2 ∨ d = 3 → d ≠ (best sc).1 →
        sc d ≤ sc (second sc).1 ∧ (sc d = sc (second sc).1 → (second sc).1 ≤ d)) := by
  unfold best second sortedEntries
  simp only [List.map, List.insertionSort, List.orderedInsert]
  by_cases h23 : sc 3 ≤ sc 2 <;> by_cases h12 : sc 2 ≤ sc 1 <;> by_cases h13 : sc 3 ≤ sc 1 <;>
    simp only [h23, h12, h13, List.orderedInsert, if_true, if_false, List.getD_cons_zero,
      List.getD_cons_succ] <;>
    refine ⟨by decide, by decide, by decide, trivial, trivial, ?_, ?_⟩ <;>
    rintro d (rfl | rfl | rfl) <;>
    (try intro hdb) <;>
    (try (exact absurd rfl hdb)) <;>
    refine ⟨?_, fun heq => ?_⟩ <;>
    first
      | omega
      | linarith

/-- C15: from no current prediction, with at least 10 outcomes, the stabilizer
enters `roundsHeld = 1` with primary the highest-scoring dozen of D1..D3 and,
in alternate mode, alt the highest-scoring of the two others (none otherwise);
among equal scores the lower dozen comes first. After ten outcomes `1` the
engine is at primary D1, alt D2, `roundsHeld = 1`, with count 10 and streak 10
for D1, and it had no prediction after nine. -/
theorem stabilize_entry (len : Nat) (sc : Nat → ℚ) (useAlt : Bool) (preds : List Prediction)
    (hlen : 10 ≤ len) :
    stabilize len sc useAlt preds none =
        some { primary := (best sc).1, alt := if useAlt then some (second sc).1 else none,
               score := sc (best sc).1, roundsHeld := 1 } ∧
      ((best sc).1 = 1 ∨ (best sc).1 = 2 ∨ (best sc).1 = 3) ∧
      ((second sc).1 = 1 ∨ (second sc).1 = 2 ∨ (second sc).1 = 3) ∧
      (second sc).1 ≠ (best sc).1 ∧
      (∀ d, d = 1 ∨ d = 2 ∨ d = 3 →
        sc d ≤ sc (best sc).1 ∧ (sc d = sc (best sc).1 → (best sc).1 ≤ d)) ∧
      (∀ d, d = 1 ∨ d = 2 ∨ d = 3 → d ≠ (best sc).1 →
        sc d ≤ sc (second sc).1 ∧ (sc d = sc (second sc).1 → (second sc).1 ≤ d)) ∧
      ninePlays.currentPred = none ∧
      tenPlays.currentPred =
        some { primary := 1, alt := some 2, score := 4 / 5, roundsHeld := 1 } ∧
      counts (lastNumbers tenPlays.numbers tenPlays.analyzeLast) 1 = 10 ∧
      streak tenPlays.numbers 1 = 10 := by
  obtain ⟨hb, hs, hne, hbv, _, hbest, hsec⟩ := rank_spec sc
  refine ⟨?_, hb, hs, hne, hbest, hsec, by decide!, by decide!, by decide!, by decide!⟩
  have hlen2 : ¬ len < 10 := by omega
  simp only [stabilize, hlen2, if_false, switchTo, hbv]

/-- Witness for C15: the effect on the log of ten outcomes `1` (window 30,
alternate mode on) with no current prediction. -/
theorem stabilize_entry_witness :
    stabilize 10 (scores [1, 1, 1, 1, 1, 1, 1, 1, 1, 1] 30) true [] none =
      some { primary := 1, alt := some 2, score := 4 / 5, roundsHeld := 1 } :=
  (stabilize_entry 10 (scores [1, 1, 1, 1, 1, 1, 1, 1, 1, 1] 30) true [] (by decide)).1.trans
    (by decide!)

/-- C16 fails as stated. First, after the 10 outcomes of `youngLog` the stabilizer
holds D1 at `0.64` with `roundsHeld = 1`; deleting the last outcome leaves 9
outcomes, the best dozen is D2 with `0.733 < 1.2 * 0.64`, and the recompute
leaves `roundsHeld` at 1 instead of 2. Second, after the 12 outcomes of
`protectionLog` the stabilizer holds D1 at `0.44` with `roundsHeld = 3`; the
outcome `13` makes D3 the best dozen with `0.484 < 1.2 * 0.44` and `0.484` not
below `1.1 * 0.44`, yet D1 is kept with `roundsHeld = 4`: the last two resolved
records are wins for D1 and the double product `0.44 * 1.1` is
`0.48400000000000004`. -/
theorem young_hold_counterexamples :
    Reachable (handleDeleteLast (addAll initialState youngLog)) ∧
      (addAll initialState youngLog).currentPred =
        some { primary := 1, alt := some 3, score := 16 / 25, roundsHeld := 1 } ∧
      (handleDeleteLast (addAll initialState youngLog)).numbers.length = 9 ∧
      best (scores (handleDeleteLast (addAll initialState youngLog)).numbers 30) =
        (2, 733 / 1000) ∧
      (733 / 1000 : ℚ) < 16 / 25 * (12 / 10) ∧
      (handleDeleteLast (addAll initialState youngLog)).currentPred =
        some { primary := 1, alt := some 3, score := 16 / 25, roundsHeld := 1 } ∧
      Reachable (addAll initialState protectionLog) ∧
      (addAll initialState protectionLog).currentPred =
        some { primary := 1, alt := some 3, score := 11 / 25, roundsHeld := 3 } ∧
      best (scores (addNumber (addAll initialState protectionLog) 13).numbers 30) =
        (3, 121 / 250) ∧
      (121 / 250 : ℚ) < 11 / 25 * (12 / 10) ∧
      ¬ ((121 / 250 : ℚ) < 11 / 25 * (11 / 10)) ∧
      toDouble (121 / 250) < jsMul (11 / 25) (11 / 10) ∧
      (addNumber (addAll initialState protectionLog) 13).currentPred =
        some { primary := 1, alt := some 3, score := 11 / 25, roundsHeld := 4 } :=
  ⟨Reachable.delete _ (reachable_addAll _ _ Reachable.init), by decide!, by decide!,
    by decide!, by decide!, by decide!, reachable_addAll _ _ Reachable.init, by decide!,
    by decide!, by decide!, by decide!, by decide!, by decide!⟩

/-- C16 (amended): with a log of at least 10 outcomes, an active prediction `p`
whose stored score is a 3-decimal score `j / 1000` in [0,1], and a best dozen
different from `p.primary` whose 3-decimal score is below `1.2 * p.score`: when
`p.roundsHeld < 3` the stabilizer keeps `p` with `roundsHeld` increased by 1;
when `p.roundsHeld ≥ 3` and there is no two-win protection, in that the last two
resolved records are not both wins for `p.primary` or the best score is
strictly above `1.1 * p.score`, it switches to the best dozen with
`roundsHeld = 1`. -/
theorem stabilize_young_holds (len : Nat) (sc : Nat → ℚ) (useAlt : Bool)
    (preds : List Prediction) (p : CurrentPred) (j k : Nat) (hlen : 10 ≤ len)
    (hne : (best sc).1 ≠ p.primary) (hj : j ≤ 1000) (hs : p.score = (j : ℚ) / 1000)
    (hb : sc (best sc).1 = (k : ℚ) / 1000) (hlt : sc (best sc).1 < p.score * (12 / 10)) :
    (p.roundsHeld < 3 →
        stabilize len sc useAlt preds (some p) =
          some { primary := p.primary, alt := p.alt, score := p.score,
                 roundsHeld := p.roundsHeld + 1 }) ∧
      (3 ≤ p.roundsHeld →
        (lastTwoWins preds p.primary = false ∨ sc (best sc).1 > p.score * (11 / 10)) →
        stabilize len sc useAlt preds (some p) =
          some { primary := (best sc).1, alt := if useAlt then some (second sc).1 else none,
                 score := sc (best sc).1, roundsHeld := 1 }) := by
  obtain ⟨_, _, _, hbv, _⟩ := rank_spec sc
  obtain ⟨_, h12, h11, _⟩ := grid_order j k _ _ hs hb
  have hlen2 : ¬ len < 10 := by omega
  have hge : ¬ toDouble (sc (best sc).1) ≥ jsMul p.score (12 / 10) := by
    rw [hb, hs]
    exact not_le.2 (grid_lt_12 j k hj (h12 hlt))
  constructor
  · intro hr
    have hr3 : ¬ p.roundsHeld ≥ 3 := by omega
    simp only [stabilize, hlen2, if_false, hne, hbv]
    rw [if_neg hge, if_neg hr3]
    split <;> rfl
  · intro hr hprot
    have hcond : ¬ ((lastTwoWins preds p.primary &&
        decide (toDouble (sc (best sc).1) < jsMul p.score (11 / 10))) = true) := by
      rcases hprot with hw | hgt
      · rw [hw]; simp
      · have hnot : ¬ toDouble (sc (best sc).1) < jsMul p.score (11 / 10) := by
          rw [hb, hs]
          exact not_lt.2 (grid_ge_11 j k hj (h11 hgt))
        simp [hnot]
    simp only [stabilize, hlen2, if_false, hne, hbv, switchTo]
    rw [if_neg hge, if_neg hcond, if_pos hr]

/-- Witness for C16 (amended): primary D1 stored at `0.5` and held for 2 rounds,
best dozen D2 at `0.55 < 0.6`. -/
theorem stabilize_young_holds_witness :
    stabilize 10 (fun d => if d = 1 then 1 / 2 else if d = 2 then 11 / 20 else 1 / 10) true []
        (some { primary := 1, alt := some 3, score := 1 / 2, roundsHeld := 2 }) =
      some { primary := 1, alt := some 3, score := 1 / 2, roundsHeld := 3 } :=
  (stabilize_young_holds 10
      (fun d => if d = 1 then 1 / 2 else if d = 2 then 11 / 20 else 1 / 10) true []
      { primary := 1, alt := some 3, score := 1 / 2, roundsHeld := 2 } 500 550
      (by decide) (by decide!) (by decide) (by norm_num) (by decide!) (by decide!)).1
    (by decide)

theorem filter_resolved_of_pending (l : List Prediction) (h : ∀ q ∈ l, q.result = none) :
    l.reverse.filter (fun q => q.result.isSome) = [] := by
  rw [List.filter_eq_nil_iff]
  intro q hq
  rw [h q (List.mem_reverse.1 hq)]
  simp

theorem lastTwo_skips_pending (front mid1 mid2 : List Prediction) (a b : Prediction)
    (hmid1 : ∀ q ∈ mid1, q.result = none) (hmid2 : ∀ q ∈ mid2, q.result = none)
    (ha : a.result ≠ none) (hb : b.result ≠ none) :
    lastTwo (front ++ b :: mid1 ++ a :: mid2) = [a, b] := by
  have ha2 : a.result.isSome = true := by
    cases h : a.result with
    | none => exact absurd h ha
    | some v => rfl
  have hb2 : b.result.isSome = true := by
    cases h : b.result with
    | none => exact absurd h hb
    | some v => rfl
  unfold lastTwo
  simp only [List.reverse_append, List.reverse_cons, List.filter_append, List.append_assoc,
    filter_resolved_of_pending mid1 hmid1, filter_resolved_of_pending mid2 hmid2,
    List.nil_append, List.filter_cons, ha2, hb2, if_true, List.filter_nil, List.singleton_append,
    List.cons_append]
  rfl

/-- C17 fails as stated: after the 10 outcomes of `twoWinsLog` the stabilizer
holds D1 at `0.64` with `roundsHeld = 1`; deleting the last outcome leaves 9
outcomes and a history whose two most recently resolved records are wins for D1;
the best dozen is D2 with `0.533 < 1.1 * 0.64`, and the recompute leaves
`roundsHeld` at 1 instead of 2. -/
theorem two_wins_hold_counterexample :
    Reachable (handleDeleteLast (addAll initialState twoWinsLog)) ∧
      (addAll initialState twoWinsLog).currentPred =
        some { primary := 1, alt := some 2, score := 16 / 25, roundsHeld := 1 } ∧
      (handleDeleteLast (addAll initialState twoWinsLog)).numbers.length = 9 ∧
      ((lastTwo (handleDeleteLast (addAll initialState twoWinsLog)).predictions).map
        fun r => (r.predictedDocena, r.result)) =
        [(1, some Verdict.win), (1, some Verdict.win)] ∧
      best (scores (handleDeleteLast (addAll initialState twoWinsLog)).numbers 30) =
        (2, 533 / 1000) ∧
      (533 / 1000 : ℚ) < 16 / 25 * (11 / 10) ∧
      (handleDeleteLast (addAll initialState twoWinsLog)).currentPred =
        some { primary := 1, alt := some 2, score := 16 / 25, roundsHeld := 1 } :=
  ⟨Reachable.delete _ (reachable_addAll _ _ Reachable.init), by decide!, by decide!,
    by decide!, by decide!, by decide!, by decide!⟩

/-- C17 (amended): with a log of at least 10 outcomes and an active prediction
`p` whose stored score is a 3-decimal score `j / 1000` in [0,1], when the two
most recently resolved records `a` (latest) and `b` are wins that predicted
`p.primary` (the pending records `mid1`, `mid2` lying after them are skipped)
and the best dozen differs from `p.primary` with a 3-decimal score below
`1.1 * p.score`, the stabilizer keeps `p` with `roundsHeld` increased by 1,
whatever `p.roundsHeld` is. -/
theorem stabilize_two_wins_hold (len : Nat) (sc : Nat → ℚ) (useAlt : Bool)
    (p : CurrentPred) (front mid1 mid2 : List Prediction) (a b : Prediction) (j k : Nat)
    (hlen : 10 ≤ len)
    (hmid1 : ∀ q ∈ mid1, q.result = none) (hmid2 : ∀ q ∈ mid2, q.result = none)
    (ha : a.result = some Verdict.win) (hb : b.result = some Verdict.win)
    (hap : a.predictedDocena = p.primary) (hbp : b.predictedDocena = p.primary)
    (hne : (best sc).1 ≠ p.primary) (hj : j ≤ 1000) (hs : p.score = (j : ℚ) / 1000)
    (hk : sc (best sc).1 = (k : ℚ) / 1000) (hlt : sc (best sc).1 < p.score * (11 / 10)) :
    stabilize len sc useAlt (front ++ b :: mid1 ++ a :: mid2) (some p) =
      some { primary := p.primary, alt := p.alt, score := p.score,
             roundsHeld := p.roundsHeld + 1 } := by
  obtain ⟨_, _, _, hbv, _⟩ := rank_spec sc
  obtain ⟨_, _, _, h11⟩ := grid_order j k _ _ hs hk
  have hk11 : 10 * k < 11 * j := h11 hlt
  have hk12 : 5 * k < 6 * j := by omega
  have hlen2 : ¬ len < 10 := by omega
  have hge : ¬ toDouble (sc (best sc).1) ≥ jsMul p.score (12 / 10) := by
    rw [hk, hs]
    exact not_le.2 (grid_lt_12 j k hj hk12)
  have hlt2 : toDouble (sc (best sc).1) < jsMul p.score (11 / 10) := by
    rw [hk, hs]
    exact grid_lt_11 j k hj hk11
  have hwins : lastTwoWins (front ++ b :: mid1 ++ a :: mid2) p.primary = true := by
    unfold lastTwoWins
    rw [lastTwo_skips_pending front mid1 mid2 a b hmid1 hmid2 (by rw [ha]; simp)
      (by rw [hb]; simp)]
    simp [ha, hb, hap, hbp]
  have hcond : (lastTwoWins (front ++ b :: mid1 ++ a :: mid2) p.primary &&
      decide (toDouble (sc (best sc).1) < jsMul p.score (11 / 10))) = true := by
    rw [hwins]
    simpa using hlt2
  simp only [stabilize, hlen2, if_false, hne, hbv]
  rw [if_neg hge, if_pos hcond]

/-- Witness for C17 (amended): best dozen D2 at `0.509`; primary D1 stored at
`0.88` and held for 5 rounds; history of two wins for D1 followed by a pending
record. -/
theorem stabilize_two_wins_hold_witness :
    stabilize 11 (fun d => if d = 1 then 491 / 1000 else if d = 2 then 509 / 1000 else 2 / 5)
        true
        ([] ++
          { predictedDocena := 1, altPred := some 2, score := 4 / 5, strength := Strength.fuerte,
            prob := 100, result := some Verdict.win, numberWhenEvaluated := some 1 } :: [] ++
          { predictedDocena := 1, altPred := some 3, score := 22 / 25,
            strength := Strength.fuerte, prob := 80, result := some Verdict.win,
            numberWhenEvaluated := some 1 } ::
          [{ predictedDocena := 1, altPred := some 1, score := 491 / 1000,
             strength := Strength.moderada, prob := 900 / 11, result := none,
             numberWhenEvaluated := none }])
        (some { primary := 1, alt := some 3, score := 22 / 25, roundsHeld := 5 }) =
      some { primary := 1, alt := some 3, score := 22 / 25, roundsHeld := 6 } :=
  stabilize_two_wins_hold 11
    (fun d => if d = 1 then 491 / 1000 else if d = 2 then 509 / 1000 else 2 / 5) true
    { primary := 1, alt := some 3, score := 22 / 25, roundsHeld := 5 } [] []
    [{ predictedDocena := 1, altPred := some 1, score := 491 / 1000,
       strength := Strength.moderada, prob := 900 / 11, result := none,
       numberWhenEvaluated := none }]
    { predictedDocena := 1, altPred := some 3, score := 22 / 25, strength := Strength.fuerte,
      prob := 80, result := some Verdict.win, numberWhenEvaluated := some 1 }
    { predictedDocena := 1, altPred := some 2, score := 4 / 5, strength := Strength.fuerte,
      prob := 100, result := some Verdict.win, numberWhenEvaluated := some 1 }
    880 509
    (by decide) (by simp) (by simp) rfl rfl rfl rfl (by decide!) (by decide) (by norm_num)
    (by decide!) (by decide!)

theorem lastNumbers_nil (N : Nat) : lastNumbers [] N = [] := by
  unfold lastNumbers
  split
  · rfl
  · simp

theorem scoreOf_empty_log (N d : Nat) :
    scoreOf (counts (lastNumbers [] N)) (absence []) (streak [])
      (totalAnalyzed (lastNumbers [] N)) d = 0 := by
  have hw : weights (absence []) (streak []) d = (6 / 10, 4 / 10) := by
    simp [weights, absence, absenceScan, streak, streakScan]
  have hm : maxAbs (absence []) = 0 := by
    simp [maxAbs, absence, absenceScan]
  have hfl : ⌊(1 / 2 : ℚ)⌋ = 0 := by
    rw [Int.floor_eq_iff]
    norm_num
  rw [lastNumbers_nil]
  unfold scoreOf
  simp only [hw, freqNorm, absenceNorm, hm, counts, List.foldl_nil, jsRound]
  norm_num [hfl]

/-- C18: `totalAnalyzed` is `max 1 (window length)`, hence at least 1 for every
log and window size; the memo `scores` is therefore always computed by the
normal path (the `totalAnalyzed === 0` branch is never taken), whose divisors
`totalAnalyzed` and `wFreq + wAbs` are not zero; on the empty log that path
gives score 0 for D1, D2 and D3. -/
theorem totalAnalyzed_never_zero (numbers : List Int) (N : Nat) :
    totalAnalyzed (lastNumbers numbers N) = max 1 (lastNumbers numbers N).length ∧
      1 ≤ totalAnalyzed (lastNumbers numbers N) ∧
      (scores numbers N = fun d =>
        scoreOf (counts (lastNumbers numbers N)) (absence numbers) (streak numbers)
          (totalAnalyzed (lastNumbers numbers N)) d) ∧
      ((totalAnalyzed (lastNumbers numbers N) : ℚ) ≠ 0) ∧
      (∀ d, (weights (absence numbers) (streak numbers) d).1 +
        (weights (absence numbers) (streak numbers) d).2 ≠ 0) ∧
      scoreOf (counts (lastNumbers [] N)) (absence []) (streak [])
        (totalAnalyzed (lastNumbers [] N)) 1 = 0 ∧
      scoreOf (counts (lastNumbers [] N)) (absence []) (streak [])
        (totalAnalyzed (lastNumbers [] N)) 2 = 0 ∧
      scoreOf (counts (lastNumbers [] N)) (absence []) (streak [])
        (totalAnalyzed (lastNumbers [] N)) 3 = 0 := by
  have hpos := (totalAnalyzed_pos (lastNumbers numbers N)).1
  refine ⟨rfl, hpos, scores_eq_scoreOf numbers N, ?_, ?_, scoreOf_empty_log N 1,
    scoreOf_empty_log N 2, scoreOf_empty_log N 3⟩
  · have : (0 : ℚ) < (totalAnalyzed (lastNumbers numbers N) : ℚ) := by exact_mod_cast hpos
    exact ne_of_gt this
  · intro d
    rw [(weights_sum (absence numbers) (streak numbers) d).1]
    norm_num

theorem absenceScan_zero_iff (d : Nat) (l : List Int) :
    absenceScan d l 0 = some 0 ↔ ∃ x rest, l = x :: rest ∧ getDocena x = some d := by
  cases l with
  | nil => simp [absenceScan]
  | cons x rest =>
    rw [absenceScan_cons]
    by_cases h : getDocena x = some d
    · simp [h]
    · rw [if_neg h, absenceScan_succ]
      constructor
      · intro hm
        cases hs : absenceScan d rest 0 with
        | none => rw [hs] at hm; cases hm
        | some a => rw [hs] at hm; simp at hm
      · rintro ⟨y, r, hl, hy⟩
        cases hl
        exact absurd hy h

theorem streakScan_pos_iff (d : Nat) (l : List Int) :
    1 ≤ streakScan d l ↔ ∃ x rest, l = x :: rest ∧ getDocena x = some d := by
  cases l with
  | nil => simp [streakScan]
  | cons x rest =>
    unfold streakScan
    by_cases h : getDocena x = some d
    · simp [h]
    · simp [h]

theorem streak_pos_iff_absence_zero (numbers : List Int) (d : Nat) :
    1 ≤ streak numbers d ↔ absence numbers d = some 0 := by
  unfold streak absence
  rw [streakScan_pos_iff, absenceScan_zero_iff]

/-- C19: for every log and every dozen `d`, `streak(d) ≥ 1` exactly when
`absence(d)` is known and `0`; at most one dozen has a non-zero streak; the two
weight overrides (`streak(d) ≥ 2`, and `absence(d)` known and `≥ 5`) never both
apply to one dozen; the weight pair is one of `(0.6, 0.4)`, `(0.8, 0.2)`,
`(0.3, 0.7)`, and normalising it by its sum leaves it unchanged. -/
theorem streak_absence_exclusive (numbers : List Int) (d : Nat) :
    (1 ≤ streak numbers d ↔ absence numbers d = some 0) ∧
      (∀ e, 1 ≤ streak numbers d → 1 ≤ streak numbers e → d = e) ∧
      ¬ (2 ≤ streak numbers d ∧ ∃ a, absence numbers d = some a ∧ 5 ≤ a) ∧
      (weights (absence numbers) (streak numbers) d = (6 / 10, 4 / 10) ∨
        weights (absence numbers) (streak numbers) d = (8 / 10, 2 / 10) ∨
        weights (absence numbers) (streak numbers) d = (3 / 10, 7 / 10)) ∧
      (weights (absence numbers) (streak numbers) d).1 /
          ((weights (absence numbers) (streak numbers) d).1 +
            (weights (absence numbers) (streak numbers) d).2) =
        (weights (absence numbers) (streak numbers) d).1 ∧
      (weights (absence numbers) (streak numbers) d).2 /
          ((weights (absence numbers) (streak numbers) d).1 +
            (weights (absence numbers) (streak numbers) d).2) =
        (weights (absence numbers) (streak numbers) d).2 := by
  have hsum := (weights_sum (absence numbers) (streak numbers) d).1
  refine ⟨streak_pos_iff_absence_zero numbers d, ?_, ?_, weights_cases _ _ d, ?_, ?_⟩
  · intro e hd he
    unfold streak at hd he
    rw [streakScan_pos_iff] at hd he
    obtain ⟨x, rest, hl, hx⟩ := hd
    obtain ⟨y, rest2, hl2, hy⟩ := he
    rw [hl] at hl2
    cases hl2
    rw [hx] at hy
    exact Option.some.inj hy
  · rintro ⟨hs, a, ha, h5⟩
    have h1 : 1 ≤ streak numbers d := by omega
    rw [(streak_pos_iff_absence_zero numbers d).1 h1] at ha
    cases ha
    omega
  · rw [hsum, div_one]
  · rw [hsum, div_one]

theorem lastAppScan_eq (start stop : Int) (n : Int) :
    ∀ (rev : List Int) (gap : Nat) (la : Int → Option Nat),
      lastAppScan start stop rev gap la n =
        match la n with
        | some g => some g
        | none => if start ≤ n ∧ n ≤ stop then plenoGapScan n rev gap else none := by
  intro rev
  induction rev with
  | nil =>
    intro gap la
    unfold lastAppScan plenoGapScan
    cases la n <;> simp
  | cons num rest ih =>
    intro gap la
    unfold lastAppScan plenoGapScan
    rw [ih]
    by_cases hc : start ≤ num ∧ num ≤ stop ∧ la num = none
    · rw [if_pos hc]
      by_cases hn : num = n
      · subst hn
        simp [hc.1, hc.2.1, hc.2.2]
      · have hn2 : n ≠ num := fun h => hn h.symm
        simp [Function.update, hn, hn2]
    · rw [if_neg hc]
      cases hla : la n with
      | some g => rfl
      | none =>
        dsimp only
        by_cases hr : start ≤ n ∧ n ≤ stop
        · have hn : num ≠ n := by
            intro h
            subst h
            exact hc ⟨hr.1, hr.2, hla⟩
          simp [hr, hn]
        · simp [hr]

theorem lastApp_eq_plenoGap (numbers : List Int) (start stop n : Int)
    (hr : start ≤ n ∧ n ≤ stop) : lastApp numbers start stop n = plenoGap numbers n := by
  unfold lastApp plenoGap
  rw [lastAppScan_eq]
  simp [hr]

theorem plenoGapScan_lt (n : Int) :
    ∀ (rev : List Int) (gap g : Nat), plenoGapScan n rev gap = some g → g < gap + rev.length := by
  intro rev
  induction rev with
  | nil => intro gap g h; simp [plenoGapScan] at h
  | cons x rest ih =>
    intro gap g h
    unfold plenoGapScan at h
    by_cases hx : x = n
    · rw [if_pos hx] at h
      cases h
      simp
    · rw [if_neg hx] at h
      have := ih (gap + 1) g h
      simp only [List.length_cons]
      omega

theorem plenoGap_lt (numbers : List Int) (n : Int) (g : Nat) (h : plenoGap numbers n = some g) :
    g < numbers.length := by
  have := plenoGapScan_lt n numbers.reverse 0 g h
  simpa using this

theorem mem_plenoKeys (start stop x : Int) :
    x ∈ plenoKeys start stop ↔ start ≤ x ∧ x ≤ stop := by
  unfold plenoKeys
  simp only [List.mem_map, List.mem_range]
  constructor
  · rintro ⟨i, hi, rfl⟩
    omega
  · intro h
    refine ⟨(x - start).toNat, ?_, ?_⟩ <;> omega

theorem nodup_plenoKeys (start stop : Int) : (plenoKeys start stop).Nodup := by
  unfold plenoKeys
  apply List.Nodup.map _ (List.nodup_range _)
  intro i j h
  simpa using h

theorem plenoEntries_map_fst (numbers : List Int) (start stop : Int) :
    (plenoEntries numbers start stop).map (fun x => x.1) = plenoKeys start stop := by
  unfold plenoEntries
  rw [List.map_map]
  exact List.map_id _

theorem plenoEntries_snd (numbers : List Int) (start stop : Int) (e : Int × Nat)
    (he : e ∈ plenoEntries numbers start stop) :
    e.2 = match plenoGap numbers e.1 with
          | none => MAX_SAFE_INTEGER
          | some g => g := by
  unfold plenoEntries at he
  rw [List.mem_map] at he
  obtain ⟨n, hn, rfl⟩ := he
  rw [lastApp_eq_plenoGap numbers start stop n ((mem_plenoKeys start stop n).1 hn)]

theorem moreOverdue_of_plenoBefore (numbers : List Int) (start stop : Int)
    (hlen : numbers.length < 2 ^ 32) (a b : Int × Nat)
    (ha : a ∈ plenoEntries numbers start stop) (hb : b ∈ plenoEntries numbers start stop)
    (hab : plenoBefore a b) (hne : a.1 ≠ b.1) : moreOverdue numbers a.1 b.1 := by
  have ea := plenoEntries_snd numbers start stop a ha
  have eb := plenoEntries_snd numbers start stop b hb
  unfold plenoBefore at hab
  unfold moreOverdue
  have hmax : (2 : Nat) ^ 32 ≤ MAX_SAFE_INTEGER := by decide
  cases hga : plenoGap numbers a.1 with
  | none =>
    cases hgb : plenoGap numbers b.1 with
    | none =>
      rw [hga] at ea
      rw [hgb] at eb
      dsimp only at ea eb ⊢
      omega
    | some y => trivial
  | some x =>
    have hx := plenoGap_lt numbers a.1 x hga
    cases hgb : plenoGap numbers b.1 with
    | none =>
      rw [hga] at ea
      rw [hgb] at eb
      dsimp only at ea eb ⊢
      omega
    | some y =>
      rw [hga] at ea
      rw [hgb] at eb
      dsimp only at ea eb ⊢
      omega

/-- C13: for a dozen `d` of D1..D3 and `take ≤ 12`, `recommendPlenos` returns the
first `take` elements of a list `full` that holds each of the 12 numbers of the
range of `d` once, ordered by gap since the last occurrence in the full log,
descending, with never-seen numbers first and ties broken by ascending number;
the result has exactly `take` distinct numbers, all in the range; for the zero
dozen the result is `[0]`. The log has fewer than `2 ^ 32` outcomes (the length
limit of an array), so a gap stays below `MAX_SAFE_INTEGER`. -/
theorem recommendPlenos_ranking (numbers : List Int) (d take : Nat)
    (hd : d = 1 ∨ d = 2 ∨ d = 3) (ht : take ≤ 12) (hlen : numbers.length < 2 ^ 32) :
    ∃ full : List Int,
      recommendPlenos numbers d take = full.take take ∧
      full.length = 12 ∧ full.Nodup ∧
      (∀ x, x ∈ full ↔ plenoStart d ≤ x ∧ x ≤ plenoEnd d) ∧
      full.Pairwise (moreOverdue numbers) ∧
      (recommendPlenos numbers d take).length = take ∧
      (recommendPlenos numbers d take).Nodup ∧
      (∀ x ∈ recommendPlenos numbers d take, plenoStart d ≤ x ∧ x ≤ plenoEnd d) ∧
      recommendPlenos numbers 0 take = [0] := by
  have hd0 : d ≠ 0 := by omega
  have hsorted : List.Sorted plenoBefore
      ((plenoEntries numbers (plenoStart d) (plenoEnd d)).insertionSort plenoBefore) := by
    haveI : IsTotal (Int × Nat) plenoBefore :=
      ⟨fun a b => by unfold plenoBefore; omega⟩
    haveI : IsTrans (Int × Nat) plenoBefore :=
      ⟨fun a b c h1 h2 => by unfold plenoBefore at *; omega⟩
    exact List.sorted_insertionSort plenoBefore _
  have hperm := List.perm_insertionSort plenoBefore
    (plenoEntries numbers (plenoStart d) (plenoEnd d))
  have hfull : (((plenoEntries numbers (plenoStart d) (plenoEnd d)).insertionSort
      plenoBefore).map fun x => x.1).Perm (plenoKeys (plenoStart d) (plenoEnd d)) := by
    rw [← plenoEntries_map_fst numbers]
    exact hperm.map _
  have hres : recommendPlenos numbers d take =
      (((plenoEntries numbers (plenoStart d) (plenoEnd d)).insertionSort plenoBefore).map
        fun x => x.1).take take := by
    unfold recommendPlenos
    rw [if_neg hd0, List.map_take]
  have hlen12 : (plenoKeys (plenoStart d) (plenoEnd d)).length = 12 := by
    unfold plenoKeys plenoStart plenoEnd
    rcases hd with rfl | rfl | rfl <;> simp
  have hnodup := (hfull.nodup_iff).2 (nodup_plenoKeys _ _)
  have hmem : ∀ x, x ∈ (((plenoEntries numbers (plenoStart d) (plenoEnd d)).insertionSort
      plenoBefore).map fun x => x.1) ↔ plenoStart d ≤ x ∧ x ≤ plenoEnd d := by
    intro x
    rw [hfull.mem_iff, mem_plenoKeys]
  refine ⟨_, hres, ?_, hnodup, hmem, ?_, ?_, ?_, ?_, ?_⟩
  · rw [hfull.length_eq, hlen12]
  · rw [List.pairwise_map]
    have hne : List.Pairwise (fun a b : Int × Nat => a.1 ≠ b.1)
        ((plenoEntries numbers (plenoStart d) (plenoEnd d)).insertionSort plenoBefore) := by
      have := hnodup
      unfold List.Nodup at this
      rw [List.pairwise_map] at this
      exact this
    refine List.Pairwise.imp_of_mem ?_ (List.Pairwise.and hsorted hne)
    intro a b ha hb hab
    exact moreOverdue_of_plenoBefore numbers _ _ hlen a b (hperm.mem_iff.1 ha)
      (hperm.mem_iff.1 hb) hab.1 hab.2
  · rw [hres, List.length_take, hfull.length_eq, hlen12]
    omega
  · rw [hres]
    exact hnodup.sublist (List.take_sublist _ _)
  · intro x hx
    rw [hres] at hx
    exact (hmem x).1 (List.mem_of_mem_take hx)
  · rfl

/-- Witness for C13: dozen 1, `take = 6`, on the log `5, 3, 14, 5, 7, 36, 1`. -/
theorem recommendPlenos_ranking_witness :
    ∃ full : List Int,
      recommendPlenos [5, 3, 14, 5, 7, 36, 1] 1 6 = full.take 6 ∧
      full.length = 12 ∧ full.Nodup ∧
      (∀ x, x ∈ full ↔ plenoStart 1 ≤ x ∧ x ≤ plenoEnd 1) ∧
      full.Pairwise (moreOverdue [5, 3, 14, 5, 7, 36, 1]) ∧
      (recommendPlenos [5, 3, 14, 5, 7, 36, 1] 1 6).length = 6 ∧
      (recommendPlenos [5, 3, 14, 5, 7, 36, 1] 1 6).Nodup ∧
      (∀ x ∈ recommendPlenos [5, 3, 14, 5, 7, 36, 1] 1 6, plenoStart 1 ≤ x ∧ x ≤ plenoEnd 1) ∧
      recommendPlenos [5, 3, 14, 5, 7, 36, 1] 0 6 = [0] :=
  recommendPlenos_ranking [5, 3, 14, 5, 7, 36, 1] 1 6 (Or.inl rfl) (by decide) (by decide)

end Rouledict
